import Mathlib

/-!
Verification development for the FT-Backend repository.

The development shallowly embeds the algorithmic core of the repository:

* `StorageService.normalizeLabel` and `StorageService.getStorageData`
  (src/services/storageService.js), including the built-in
  `DEFAULT_STORAGE_DATA` table and the field-by-field record merge;
* `ImageProcessor.postprocess` / `ImageProcessor.nonMaxSuppression`
  (src/services/imageProcessor.js): the probabilistic scoring mode
  (softmax over class scores, sigmoid over objectness, clamped product)
  followed by IoU-based non-maximum suppression;
* the raw-threshold decoder of src/unnamed/part_001 (`Part001.postprocess`)
  and the objectness-prefilter decoder of src/unnamed/part_003
  (`Part003.decodeRow`).

Modelling conventions.  JavaScript strings are modelled as `List Char`
(wrapped in `String` at the interface); `String.prototype.toLowerCase` /
`toUpperCase` are modelled by the ASCII case maps `Char.toLower` /
`Char.toUpper` applied characterwise, which agrees with JavaScript on the
ASCII labels this code manipulates.  JavaScript numbers are modelled as
exact reals (`ℝ`); `NaN`/`Infinity` float edge cases are outside the model
and noted where relevant.  Division is Lean's total division (`x / 0 = 0`);
the place where the JavaScript code can actually divide by zero is treated
explicitly in the IoU claims.  JSON objects are modelled as association
lists of field name/value pairs, so that the semantics of the JS spread
operator and of the `??` null-coalescing backfill can be stated field by
field.  Console logging and file-system side effects are dropped.
-/

namespace StorageService

/-- Whitespace test used by the model of `String.prototype.trim`
(the ASCII whitespace characters). -/
def isWS (c : Char) : Bool :=
  c = ' ' || c = '\t' || c = '\n' || c = '\r' || c = '\x0b' || c = '\x0c'

/-- Model of `label.trim()`: drop whitespace from both ends. -/
def trimL (l : List Char) : List Char :=
  ((l.dropWhile isWS).reverse.dropWhile isWS).reverse

/-- Characterwise lower-casing, the model of `String.prototype.toLowerCase`
for the ASCII strings this service manipulates. -/
def lcList (l : List Char) : List Char := l.map Char.toLower

/-- Split on the underscore character, the model of `formatted.split('_')`.
Always returns a non-empty list of underscore-free segments. -/
def splitU : List Char → List (List Char)
  | [] => [[]]
  | c :: rest =>
    if c = '_' then [] :: splitU rest
    else (c :: (splitU rest).headI) :: (splitU rest).tail

/-- Rejoin segments with underscores, the model of `parts.join('_')`. -/
def joinU : List (List Char) → List Char
  | [] => []
  | [p] => p
  | p :: ps => p ++ '_' :: joinU ps

/-- Model of `s.charAt(0).toUpperCase() + s.slice(1).toLowerCase()`
applied to the second underscore-delimited segment. -/
def cap (l : List Char) : List Char :=
  match l with
  | [] => []
  | c :: rest => Char.toUpper c :: rest.map Char.toLower

/-- Model of the prefix-normalisation step of `normalizeLabel`: a
case-insensitive `fresh_` / `rotten_` prefix is rewritten to canonical
casing, other strings pass through unchanged. -/
def headRewrite (l : List Char) : List Char :=
  if ("fresh_".toList).isPrefixOf (lcList l) then ("Fresh_".toList) ++ l.drop 6
  else if ("rotten_".toList).isPrefixOf (lcList l) then ("Rotten_".toList) ++ l.drop 7
  else l

/-- Model of the second-segment capitalisation step of `normalizeLabel`:
when the string has more than one underscore-delimited part, part 1 is
capitalised and the parts are rejoined. -/
def capSecond (l : List Char) : List Char :=
  match splitU l with
  | p0 :: p1 :: ps => joinU (p0 :: cap p1 :: ps)
  | _ => l

/-- Model of `StorageService.normalizeLabel` (storageService.js):
`if (!label) return ''` followed by trim, prefix normalisation and
second-segment capitalisation. -/
def normalizeLabel (l : List Char) : List Char :=
  if l = [] then []
  else capSecond (headRewrite (trimL l))

/-- String-level wrapper for `normalizeLabel`. -/
def normalizeLabelS (s : String) : String := ⟨normalizeLabel s.data⟩

/-- The action of `normalizeLabel`'s prefix step on the first
underscore-delimited segment: a case-insensitive `fresh` / `rotten` head
segment is replaced by its canonical casing. -/
def fixHead (p : List Char) : List Char :=
  if lcList p = "fresh".toList then "Fresh".toList
  else if lcList p = "rotten".toList then "Rotten".toList
  else p

/-- The action of the whole of `normalizeLabel` (after trimming) on the
underscore-split parts: fix the first segment's prefix casing and
capitalise the second segment. -/
def normParts : List (List Char) → List (List Char)
  | p0 :: p1 :: ps => fixHead p0 :: cap p1 :: ps
  | parts => parts

/-- Characterwise lower-casing of a string, the model of
`key.toLowerCase()` in the case-insensitive key scan. -/
def lowerS (s : String) : String := ⟨lcList s.data⟩

/-- A character list is trimmed when neither end carries whitespace — the
invariant `normalizeLabel` outputs satisfy. -/
def Trimmed (l : List Char) : Prop :=
  (∀ c, l.head? = some c → isWS c = false) ∧
  (∀ c, l.getLast? = some c → isWS c = false)

/-- One entry of a `storage_methods` array in the storage dataset. -/
structure StorageMethod where
  method : String
  duration : String
  temperature : String
  humidity : String
deriving DecidableEq, Repr

/-- JSON values occurring in storage records: `null`, strings, integers,
`storage_methods` arrays, and the empty-object fallback used for
`ripeness_guide` / `preparation_tips`. -/
inductive JVal where
  | jnull
  | jstr (s : String)
  | jnum (n : Int)
  | jmethods (ms : List StorageMethod)
  | jempty
deriving DecidableEq, Repr

/-- A storage record: a JSON object modelled as an association list from
field names to values.  A field is "missing" when its key is absent. -/
abbrev Obj : Type := List (String × JVal)

/-- The storage dataset: a JSON object mapping labels to records. -/
abbrev Dataset : Type := List (String × Obj)

/-- Field access on a JSON object: the first binding for the key, `none`
when the key is absent (JS `undefined`). -/
def getField (o : Obj) (k : String) : Option JVal :=
  (o.find? (fun p => p.1 = k)).map (fun p => p.2)

/-- Key access on the dataset: the model of `this.storageData[key]`. -/
def datasetGet (d : Dataset) (k : String) : Option Obj :=
  (d.find? (fun p => p.1 = k)).map (fun p => p.2)

/-- Null-coalescing choice, the model of `a ?? b`: `b` is used when `a` is
absent (`undefined`) or `null`. -/
def coal (a b : Option JVal) : Option JVal :=
  match a with
  | none => b
  | some JVal.jnull => b
  | some v => some v

/-- Model of the JS object spread `{ ...d, ...e }`: keys of `d` in order,
with values overridden by `e` where both are present, followed by the keys
only in `e`. -/
def spreadMerge (d e : Obj) : Obj :=
  (d.map (fun p => (p.1, (getField e p.1).getD p.2))) ++
    (e.filter (fun p => (getField d p.1).isNone))

/-- Model of an explicit field in an object literal `{ ...m, k: v }`:
overrides the binding for `k`, appending it when absent. -/
def setKey (k : String) (v : JVal) (o : Obj) : Obj :=
  if (getField o k).isSome then
    o.map (fun p => if p.1 = k then (k, v) else p)
  else o ++ [(k, v)]

/-- Model of the merged record built by `getStorageData` when an entry is
found: the spread of the default entry under the found entry, with the four
`??`-backfilled fields set explicitly. -/
def mergedResult (dfltEntry entry : Obj) : Obj :=
  setKey ("source")
      ((coal (getField entry ("source"))
        (coal (getField dfltEntry ("source")) (some (JVal.jstr ("Unknown"))))).getD JVal.jnull)
    (setKey ("preparation_tips")
      ((coal (getField entry ("preparation_tips"))
        (coal (getField dfltEntry ("preparation_tips")) (some JVal.jempty))).getD JVal.jnull)
    (setKey ("ripeness_guide")
      ((coal (getField entry ("ripeness_guide"))
        (coal (getField dfltEntry ("ripeness_guide")) (some JVal.jempty))).getD JVal.jnull)
    (setKey ("storage_methods")
      ((coal (getField entry ("storage_methods"))
        (coal (getField dfltEntry ("storage_methods")) (some (JVal.jmethods [])))).getD JVal.jnull)
    (spreadMerge dfltEntry entry))))

/-- Model of the entry search in `getStorageData`: exact key first, then a
case-insensitive scan over the dataset entries in order. -/
def lookupEntry (data : Dataset) (normalized : String) : Option Obj :=
  match datasetGet data normalized with
  | some v => some v
  | none =>
    (data.find? (fun p => lowerS p.1 = lowerS normalized)).map (fun p => p.2)

/-- The possible arguments of `getStorageData` as called from JS:
`undefined`, `null`, a string, or any non-string value (tagged with its
truthiness). -/
inductive JsArg where
  | undef
  | nul
  | str (s : String)
  | nonString (truthy : Bool)
deriving DecidableEq, Repr

/-- The possible results of `getStorageData`: the whole dataset, a single
merged record, or `null`. -/
inductive LookupResult where
  | dataset (d : Dataset)
  | record (r : Obj)
  | nullRes
deriving DecidableEq, Repr

/-- Model of `StorageService.getStorageData` (storageService.js),
parametrised by the active dataset `active` (the loaded
`this.storageData`) and the built-in table `dflt` (`DEFAULT_STORAGE_DATA`).
Returns the whole dataset for `undefined`/`null`, `null` for the empty
string and for non-string arguments, and otherwise looks the normalised
label up (exactly, then case-insensitively) and merges the found entry
over the default entry for the normalised key. -/
def getStorageData (active dflt : Dataset) (arg : JsArg) : LookupResult :=
  match arg with
  | JsArg.undef => LookupResult.dataset active
  | JsArg.nul => LookupResult.dataset active
  | JsArg.nonString _ => LookupResult.nullRes
  | JsArg.str s =>
    if s = "" then LookupResult.nullRes
    else
      let normalized := normalizeLabelS s
      match lookupEntry active normalized with
      | some entry =>
        LookupResult.record
          (mergedResult ((datasetGet dflt normalized).getD []) entry)
      | none => LookupResult.nullRes

/-- The built-in `DEFAULT_STORAGE_DATA` table of storageService.js,
transcribed record by record. -/
def DEFAULT_STORAGE_DATA : Dataset := [
  ("Fresh_Apple", [
    ("storage", JVal.jstr ("Refrigerate in crisper drawer at 32-40°F (0-4°C)")),
    ("shelf_life", JVal.jnum (42)),
    ("tips", JVal.jstr ("Store away from other fruits to prevent ripening. Optimal humidity 90-95%. Can be stored in perforated plastic bags.")),
    ("signs_of_spoilage", JVal.jstr ("Soft spots, mold, wrinkled skin, mushy texture")),
    ("status", JVal.jstr ("Fresh")),
    ("waste_disposal", JVal.jstr ("Compost if no mold present")),
    ("storage_methods", JVal.jmethods [⟨"Refrigerator", "4-6 weeks", "32-40°F (0-4°C)", "90-95%"⟩,
      ⟨"Cold Storage/Cellar", "2-3 months", "30-32°F (-1-0°C)", "90%"⟩,
      ⟨"Room Temperature", "5-7 days", "60-70°F (15-21°C)", "n/a"⟩]),
    ("source", JVal.jstr ("USDA Food Storage Guidelines & University of Maine Cooperative Extension"))]),
  ("Fresh_Banana", [
    ("storage", JVal.jstr ("Store at room temperature away from direct sunlight; refrigerate only when fully ripe")),
    ("shelf_life", JVal.jnum (5)),
    ("tips", JVal.jstr ("Bananas ripen faster when stored near other fruits due to ethylene gas. Refrigeration darkens the peel but keeps the inside firm longer.")),
    ("signs_of_spoilage", JVal.jstr ("Large brown/black patches, leaking liquid, fermented smell, mushy texture")),
    ("status", JVal.jstr ("Fresh")),
    ("waste_disposal", JVal.jstr ("Compost peels; discard spoiled fruit in sealed bag")),
    ("storage_methods", JVal.jmethods [⟨"Room Temperature", "2-5 days (unripe), 2-3 days (ripe)", "60-70°F (15-21°C)", "n/a"⟩,
      ⟨"Refrigerator", "5-7 days (ripe only)", "32-40°F (0-4°C)", "n/a"⟩,
      ⟨"Freezer", "2-3 months", "0°F (-18°C)", "n/a"⟩]),
    ("source", JVal.jstr ("USDA & University of Florida IFAS Extension"))]),
  ("Fresh_Orange", [
    ("storage", JVal.jstr ("Refrigerate for longest freshness or keep at room temperature if consuming soon")),
    ("shelf_life", JVal.jnum (21)),
    ("tips", JVal.jstr ("Avoid storing in sealed plastic bags; allow airflow. Keep away from moisture to prevent mold.")),
    ("signs_of_spoilage", JVal.jstr ("Soft spots, sour or fermented smell, mold (white/green/blue), leaking juice")),
    ("status", JVal.jstr ("Fresh")),
    ("waste_disposal", JVal.jstr ("Compost peels if clean; discard moldy oranges in sealed bag")),
    ("storage_methods", JVal.jmethods [⟨"Refrigerator", "2-3 weeks", "32-40°F (0-4°C)", "85-95%"⟩,
      ⟨"Room Temperature", "5-7 days", "60-70°F (15-21°C)", "n/a"⟩]),
    ("source", JVal.jstr ("USDA & University of California Agriculture and Natural Resources"))]),
  ("Fresh_Manggo", [
    ("storage", JVal.jstr ("Store at room temperature until ripe; refrigerate once ripe to extend freshness")),
    ("shelf_life", JVal.jnum (7)),
    ("tips", JVal.jstr ("Keep unripe mangoes at room temperature. Once ripe, refrigerate to slow softening. Avoid stacking to prevent bruising.")),
    ("signs_of_spoilage", JVal.jstr ("Fermented or sour smell, excessive softness, leaking juice, dark moldy spots")),
    ("status", JVal.jstr ("Fresh")),
    ("waste_disposal", JVal.jstr ("Compost peels and seeds if no mold; discard moldy mangoes in sealed bag")),
    ("storage_methods", JVal.jmethods [⟨"Room Temperature (Unripe)", "2-4 days", "60-70°F (15-21°C)", "n/a"⟩,
      ⟨"Refrigerator (Ripe)", "3-5 days", "32-40°F (0-4°C)", "n/a"⟩,
      ⟨"Freezer (Cut Mango)", "10-12 months", "0°F (-18°C)", "n/a"⟩]),
    ("source", JVal.jstr ("USDA & National Mango Board"))]),
  ("Fresh_Strawberry", [
    ("storage", JVal.jstr ("Refrigerate immediately; keep dry and store unwashed in a breathable container.")),
    ("shelf_life", JVal.jnum (3)),
    ("tips", JVal.jstr ("Do not wash until ready to eat. Remove any spoiled berries immediately to prevent spread of mold.")),
    ("signs_of_spoilage", JVal.jstr ("White/green mold, soft or mushy texture, leaking juice, fermented or sour smell")),
    ("status", JVal.jstr ("Fresh")),
    ("waste_disposal", JVal.jstr ("Compost if free of mold; if moldy, seal in bag and dispose in trash.")),
    ("storage_methods", JVal.jmethods [⟨"Refrigerator", "2–3 days", "32–36°F (0–2°C)", "High humidity recommended"⟩,
      ⟨"Freezer (Whole or Sliced)", "8–12 months", "0°F (-18°C)", "n/a"⟩,
      ⟨"Paper-Towel Container Method", "4–7 days", "Refrigerated", "Moderate, moisture-controlled"⟩]),
    ("source", JVal.jstr ("USDA & UC Agriculture and Natural Resources"))]),
  ("Fresh_Potato", [
    ("storage", JVal.jstr ("Store in a cool, dark, well-ventilated place; avoid refrigeration to prevent starch-to-sugar conversion.")),
    ("shelf_life", JVal.jnum (30)),
    ("tips", JVal.jstr ("Keep potatoes away from onions to prevent faster spoilage. Remove sprouting potatoes immediately to slow deterioration.")),
    ("signs_of_spoilage", JVal.jstr ("Soft or mushy texture, large green patches, mold growth, foul or earthy rotten odor, excessive sprouting")),
    ("status", JVal.jstr ("Fresh")),
    ("waste_disposal", JVal.jstr ("Compost if not moldy; otherwise seal in a bag and dispose in regular trash.")),
    ("storage_methods", JVal.jmethods [⟨"Pantry (Cool, Dark Area)", "3–6 weeks", "45–55°F (7–13°C)", "High humidity recommended"⟩,
      ⟨"Refrigerator (Not Recommended)", "Not advised", "32–40°F (0–4°C)", "n/a"⟩,
      ⟨"Root Cellar", "2–3 months", "40–50°F (4–10°C)", "90–95%"⟩]),
    ("source", JVal.jstr ("USDA & Produce Storage Guidelines"))]),
  ("Fresh_Carrot", [
    ("storage", JVal.jstr ("Refrigerate in the crisper drawer at 32-40°F (0-4°C)")),
    ("shelf_life", JVal.jnum (30)),
    ("tips", JVal.jstr ("Remove carrot tops to prevent moisture loss. Store in perforated plastic bags for optimal humidity.")),
    ("signs_of_spoilage", JVal.jstr ("Limp texture, white dryness on surface, sliminess, mold patches, foul odor")),
    ("status", JVal.jstr ("Fresh")),
    ("waste_disposal", JVal.jstr ("Compost if no mold; discard moldy or slimy carrots in sealed bag")),
    ("storage_methods", JVal.jmethods [⟨"Refrigerator", "3-4 weeks", "32-40°F (0-4°C)", "90-95%"⟩,
      ⟨"Root Cellar", "2-4 months", "32-40°F (0-4°C)", "95%"⟩,
      ⟨"Room Temperature", "3-5 days", "60-70°F (15-21°C)", "n/a"⟩]),
    ("source", JVal.jstr ("USDA & University of Nebraska-Lincoln Extension"))]),
  ("Fresh_Pepper", [
    ("storage", JVal.jstr ("Refrigerate in the crisper drawer; keep dry and unwashed until use")),
    ("shelf_life", JVal.jnum (10)),
    ("tips", JVal.jstr ("Store in a breathable bag. Bell peppers last longer than thin-walled peppers. Moisture speeds spoilage.")),
    ("signs_of_spoilage", JVal.jstr ("Wrinkled skin, soft or sunken spots, mold near stem, sour odor")),
    ("status", JVal.jstr ("Fresh")),
    ("waste_disposal", JVal.jstr ("Compost if not moldy; discard moldy peppers in sealed bag")),
    ("storage_methods", JVal.jmethods [⟨"Refrigerator", "1-2 weeks", "45-50°F (7-10°C)", "90-95%"⟩,
      ⟨"Room Temperature", "2-3 days", "60-70°F (15-21°C)", "n/a"⟩,
      ⟨"Freezer (Chopped)", "10-12 months", "0°F (-18°C)", "n/a"⟩]),
    ("source", JVal.jstr ("USDA & University of Minnesota Extension"))]),
  ("Fresh_Cucumber", [
    ("storage", JVal.jstr ("Refrigerate in the crisper drawer; keep dry to prevent mold")),
    ("shelf_life", JVal.jnum (7)),
    ("tips", JVal.jstr ("Do not store near ethylene-producing fruits (apples, bananas). Wrap in paper towel and place in a loose plastic bag for longest freshness.")),
    ("signs_of_spoilage", JVal.jstr ("Soft spots, shriveling, sliminess, leaking moisture, mold growth")),
    ("status", JVal.jstr ("Fresh")),
    ("waste_disposal", JVal.jstr ("Compost if not moldy; discard moldy or slimy cucumbers in sealed bag")),
    ("storage_methods", JVal.jmethods [⟨"Refrigerator", "5-7 days", "45-50°F (7-10°C)", "90-95%"⟩,
      ⟨"Room Temperature", "1-2 days", "60-70°F (15-21°C)", "n/a"⟩]),
    ("source", JVal.jstr ("USDA & Virginia Cooperative Extension"))]),
  ("Fresh_Okra", [
    ("storage", JVal.jstr ("Refrigerate in a breathable bag; avoid moisture to prevent sliminess")),
    ("shelf_life", JVal.jnum (4)),
    ("tips", JVal.jstr ("Keep okra dry—moisture speeds spoilage. Do not wash before storing. Use within a few days for best texture.")),
    ("signs_of_spoilage", JVal.jstr ("Dark spots, limp or soft pods, slimy texture, mold on stems")),
    ("status", JVal.jstr ("Fresh")),
    ("waste_disposal", JVal.jstr ("Compost if no mold; discard moldy or slimy okra in sealed bag")),
    ("storage_methods", JVal.jmethods [⟨"Refrigerator", "2-4 days", "45-50°F (7-10°C)", "90-95%"⟩,
      ⟨"Room Temperature", "1 day max", "60-70°F (15-21°C)", "n/a"⟩,
      ⟨"Freezer (Blanched)", "8-12 months", "0°F (-18°C)", "n/a"⟩]),
    ("source", JVal.jstr ("USDA & University of Georgia Extension (National Center for Home Food Preservation)"))]),
  ("Fresh_Beef", [
    ("storage", JVal.jstr ("Refrigerate at 32-40°F (0-4°C) or freeze immediately")),
    ("shelf_life", JVal.jnum (5)),
    ("tips", JVal.jstr ("Store on the lowest refrigerator shelf to avoid cross-contamination. Keep in original packaging or rewrap tightly.")),
    ("signs_of_spoilage", JVal.jstr ("Gray-brown color, slimy texture, sticky surface, sour or ammonia-like odor")),
    ("status", JVal.jstr ("Fresh")),
    ("waste_disposal", JVal.jstr ("Seal and discard immediately; do not compost raw meat")),
    ("storage_methods", JVal.jmethods [⟨"Refrigerator (Ground Beef)", "1-2 days", "32-40°F (0-4°C)", "n/a"⟩,
      ⟨"Refrigerator (Steaks/Roasts)", "3-5 days", "32-40°F (0-4°C)", "n/a"⟩,
      ⟨"Freezer (Ground Beef)", "3-4 months", "0°F (-18°C)", "n/a"⟩,
      ⟨"Freezer (Steaks/Roasts)", "6-12 months", "0°F (-18°C)", "n/a"⟩]),
    ("source", JVal.jstr ("USDA Food Safety and Inspection Service (FSIS)"))]),
  ("Fresh_Chicken", [
    ("storage", JVal.jstr ("Refrigerate at 32-40°F (0-4°C) or freeze immediately after purchase")),
    ("shelf_life", JVal.jnum (2)),
    ("tips", JVal.jstr ("Keep chicken in its original packaging and place it on the bottom shelf to prevent cross-contamination. Handle with clean hands and sanitize surfaces.")),
    ("signs_of_spoilage", JVal.jstr ("Slimy texture, sour or sulfur-like odor, grayish color, sticky surface")),
    ("status", JVal.jstr ("Fresh")),
    ("waste_disposal", JVal.jstr ("Seal raw chicken waste in a bag and discard immediately; never compost raw poultry")),
    ("storage_methods", JVal.jmethods [⟨"Refrigerator (Whole Chicken)", "1-2 days", "32-40°F (0-4°C)", "n/a"⟩,
      ⟨"Refrigerator (Cut Chicken)", "1-2 days", "32-40°F (0-4°C)", "n/a"⟩,
      ⟨"Freezer (Whole Chicken)", "12 months", "0°F (-18°C)", "n/a"⟩,
      ⟨"Freezer (Chicken Parts)", "9 months", "0°F (-18°C)", "n/a"⟩]),
    ("source", JVal.jstr ("USDA Food Safety and Inspection Service (FSIS)"))]),
  ("Fresh_Pork", [
    ("storage", JVal.jstr ("Refrigerate immediately; keep in original packaging or airtight container")),
    ("shelf_life", JVal.jnum (3)),
    ("tips", JVal.jstr ("Keep raw pork on the lowest refrigerator shelf to avoid cross-contamination. Freeze if not using within 3 days.")),
    ("signs_of_spoilage", JVal.jstr ("Slimy surface, gray/green discoloration, sour or ammonia-like odor")),
    ("status", JVal.jstr ("Fresh")),
    ("waste_disposal", JVal.jstr ("Seal tightly and dispose in trash; avoid composting raw meat")),
    ("storage_methods", JVal.jmethods [⟨"Refrigerator", "2-3 days", "32-40°F (0-4°C)", "n/a"⟩,
      ⟨"Freezer", "4-12 months", "0°F (-18°C)", "n/a"⟩,
      ⟨"Vacuum-Sealed Freezer", "1-2 years", "0°F (-18°C)", "n/a"⟩]),
    ("source", JVal.jstr ("USDA Food Safety & Inspection Service"))]),
  ("Rotten_Apple", [
    ("storage", JVal.jstr ("Do not store; discard immediately.")),
    ("shelf_life", JVal.jnum (0)),
    ("tips", JVal.jstr ("Rotten apples release ethylene gas, accelerating spoilage of nearby produce. Keep away from other food.")),
    ("signs_of_spoilage", JVal.jstr ("Brown/black soft spots, fermented smell, leaking juices, mold growth, wrinkled collapsed skin")),
    ("status", JVal.jstr ("Rotten")),
    ("waste_disposal", JVal.jstr ("Compost only if no mold is present; if moldy, seal in a bag and dispose in trash.")),
    ("storage_methods", JVal.jmethods []),
    ("source", JVal.jstr ("USDA & University of Maine Cooperative Extension"))]),
  ("Rotten_Banana", [
    ("storage", JVal.jstr ("Do not store; discard immediately.")),
    ("shelf_life", JVal.jnum (0)),
    ("tips", JVal.jstr ("Rotten bananas attract fruit flies and can contaminate nearby produce. Handle carefully to avoid leaks.")),
    ("signs_of_spoilage", JVal.jstr ("Black mushy peel, leaking liquid, fermented or alcohol-like smell, visible mold, slimy texture")),
    ("status", JVal.jstr ("Rotten")),
    ("waste_disposal", JVal.jstr ("Do not compost moldy bananas. Seal in a plastic bag and dispose in trash.")),
    ("storage_methods", JVal.jmethods []),
    ("source", JVal.jstr ("USDA & University of California Agriculture and Natural Resources"))]),
  ("Rotten_Orange", [
    ("storage", JVal.jstr ("Do not store; discard immediately.")),
    ("shelf_life", JVal.jnum (0)),
    ("tips", JVal.jstr ("Citrus fruits with mold can spread spores quickly. Even small mold spots indicate internal spoilage.")),
    ("signs_of_spoilage", JVal.jstr ("Soft or sunken areas, white/green/blue mold, fermented smell, leaking juice, bitter or off odor")),
    ("status", JVal.jstr ("Rotten")),
    ("waste_disposal", JVal.jstr ("Do not compost moldy citrus; seal in a plastic bag and discard in trash.")),
    ("storage_methods", JVal.jmethods []),
    ("source", JVal.jstr ("USDA & Clemson Cooperative Extension"))]),
  ("Rotten_Manggo", [
    ("storage", JVal.jstr ("Do not store; discard immediately.")),
    ("shelf_life", JVal.jnum (0)),
    ("tips", JVal.jstr ("Mangoes spoil quickly once bruised. Rotten mangoes release liquid and attract insects.")),
    ("signs_of_spoilage", JVal.jstr ("Fermented or alcoholic smell, leaking juice, brown/black soft areas, mold growth, wrinkled skin")),
    ("status", JVal.jstr ("Rotten")),
    ("waste_disposal", JVal.jstr ("Compost only if there is no mold. If moldy, seal in a bag and dispose in trash.")),
    ("storage_methods", JVal.jmethods []),
    ("source", JVal.jstr ("USDA & National Center for Home Food Preservation"))]),
  ("Rotten_Strawberry", [
    ("storage", JVal.jstr ("Do not store; discard immediately.")),
    ("shelf_life", JVal.jnum (0)),
    ("tips", JVal.jstr ("Strawberries spoil extremely fast. One moldy berry can spread contamination throughout the entire container.")),
    ("signs_of_spoilage", JVal.jstr ("White or green mold, mushy or collapsing texture, dark wet spots, fermented or sour odor")),
    ("status", JVal.jstr ("Rotten")),
    ("waste_disposal", JVal.jstr ("Do NOT compost moldy berries. Seal in a bag and dispose in household trash.")),
    ("storage_methods", JVal.jmethods []),
    ("source", JVal.jstr ("USDA & UC Agriculture and Natural Resources"))]),
  ("Rotten_Carrot", [
    ("storage", JVal.jstr ("Do not store; discard immediately.")),
    ("shelf_life", JVal.jnum (0)),
    ("tips", JVal.jstr ("Spoiled carrots can develop mold and a slimy texture. Separate from other vegetables to avoid spreading contamination.")),
    ("signs_of_spoilage", JVal.jstr ("Slimy surface, mushy texture, dark or black spots, white mold growth, sour smell")),
    ("status", JVal.jstr ("Rotten")),
    ("waste_disposal", JVal.jstr ("Compost only if there is **no mold present**. If moldy, seal in a bag and place in trash.")),
    ("storage_methods", JVal.jmethods []),
    ("source", JVal.jstr ("USDA & University of Minnesota Extension"))]),
  ("Rotten_Cucumber", [
    ("storage", JVal.jstr ("Do not store; discard immediately.")),
    ("shelf_life", JVal.jnum (0)),
    ("tips", JVal.jstr ("Cucumbers spoil quickly once moisture builds up. Rot spreads fast to nearby vegetables.")),
    ("signs_of_spoilage", JVal.jstr ("Soft, watery texture; leaking liquid; yellowing; mold patches; sour smell")),
    ("status", JVal.jstr ("Rotten")),
    ("waste_disposal", JVal.jstr ("Compost only if there is no mold present. If moldy or leaking, seal in a bag and place in trash.")),
    ("storage_methods", JVal.jmethods []),
    ("source", JVal.jstr ("USDA & University of Wisconsin Horticulture"))]),
  ("Rotten_Okra", [
    ("storage", JVal.jstr ("Do not store; discard immediately.")),
    ("shelf_life", JVal.jnum (0)),
    ("tips", JVal.jstr ("Okra becomes slimy very quickly once it starts spoiling. Keep spoiled okra away from fresh produce.")),
    ("signs_of_spoilage", JVal.jstr ("Slimy coating, dark brown/black spots, mushy texture, sour or unpleasant odor, mold patches")),
    ("status", JVal.jstr ("Rotten")),
    ("waste_disposal", JVal.jstr ("Compost only if there is no mold present. If moldy, seal in a bag and place in trash.")),
    ("storage_methods", JVal.jmethods []),
    ("source", JVal.jstr ("USDA & University of Florida IFAS Extension"))]),
  ("Rotten_Pepper", [
    ("storage", JVal.jstr ("Do not store; discard immediately.")),
    ("shelf_life", JVal.jnum (0)),
    ("tips", JVal.jstr ("Peppers deteriorate quickly once soft spots appear. Mold spreads fast inside hollow vegetables.")),
    ("signs_of_spoilage", JVal.jstr ("Wrinkled or collapsing skin, soft watery areas, black spots, mold growth, sour or rotten odor")),
    ("status", JVal.jstr ("Rotten")),
    ("waste_disposal", JVal.jstr ("Compost only if there is no mold. If moldy, seal in a bag and discard in trash.")),
    ("storage_methods", JVal.jmethods []),
    ("source", JVal.jstr ("USDA & Penn State Extension"))]),
  ("Rotten_Potato", [
    ("storage", JVal.jstr ("Do not store; discard immediately.")),
    ("shelf_life", JVal.jnum (0)),
    ("tips", JVal.jstr ("Rotten potatoes release toxic solanine gas, which can cause headaches and nausea in enclosed spaces.")),
    ("signs_of_spoilage", JVal.jstr ("Soft/mushy texture, foul sulfur-like odor, green coloration, sprouting with decay, black mold")),
    ("status", JVal.jstr ("Rotten")),
    ("waste_disposal", JVal.jstr ("Seal in a bag and discard in trash immediately. Do NOT compost rotten or moldy potatoes.")),
    ("storage_methods", JVal.jmethods []),
    ("source", JVal.jstr ("USDA & University of Idaho Extension"))]),
  ("Rotten_Beef", [
    ("storage", JVal.jstr ("Do not store; discard immediately.")),
    ("shelf_life", JVal.jnum (0)),
    ("tips", JVal.jstr ("Rotten beef can harbor dangerous bacteria like Salmonella or E. coli. Avoid touching other foods with contaminated packaging.")),
    ("signs_of_spoilage", JVal.jstr ("Brown/green discoloration, sticky or slimy surface, strong sour or ammonia-like odor, mold patches")),
    ("status", JVal.jstr ("Rotten")),
    ("waste_disposal", JVal.jstr ("Double-bag before throwing into trash to prevent leaks and odors. Do not compost raw or spoiled meat.")),
    ("storage_methods", JVal.jmethods []),
    ("source", JVal.jstr ("USDA Food Safety & Inspection Service"))]),
  ("Rotten_Chicken", [
    ("storage", JVal.jstr ("Do not store; discard immediately to prevent bacterial contamination.")),
    ("shelf_life", JVal.jnum (0)),
    ("tips", JVal.jstr ("Raw chicken spoils rapidly. Even slight off-odors or sliminess indicate bacterial growth such as Salmonella or Campylobacter.")),
    ("signs_of_spoilage", JVal.jstr ("Sour or sulfur-like odor, sticky or slimy surface, gray/green discoloration, tacky texture")),
    ("status", JVal.jstr ("Rotten")),
    ("waste_disposal", JVal.jstr ("Seal securely in bags and dispose in an outdoor trash bin. Never compost rotten meat.")),
    ("storage_methods", JVal.jmethods []),
    ("source", JVal.jstr ("USDA Food Safety & Inspection Service"))]),
  ("Rotten_Pork", [
    ("storage", JVal.jstr ("Do not store; discard immediately to prevent bacterial contamination.")),
    ("shelf_life", JVal.jnum (0)),
    ("tips", JVal.jstr ("Rotten pork can harbor harmful bacteria like Salmonella, Listeria, and E. coli. Even slight odor changes indicate spoilage.")),
    ("signs_of_spoilage", JVal.jstr ("Sour or ammonia-like smell, sticky or slimy texture, gray/green discoloration, tacky surface")),
    ("status", JVal.jstr ("Rotten")),
    ("waste_disposal", JVal.jstr ("Seal tightly in double bags and dispose in an outdoor trash bin. Never compost rotten meat.")),
    ("storage_methods", JVal.jmethods []),
    ("source", JVal.jstr ("USDA Food Safety & Inspection Service"))])
]

end StorageService

/-- The YOLO class-name table shared by all decoder variants
(`CLASS_NAMES`, 26 entries, identical in imageProcessor.js,
part_001 and part_003). -/
def CLASS_NAMES : List String := [
  "Fresh_Apple",
  "Fresh_Banana",
  "Fresh_Beef",
  "Fresh_Carrot",
  "Fresh_Chicken",
  "Fresh_Cucumber",
  "Fresh_Manggo",
  "Fresh_Okra",
  "Fresh_Orange",
  "Fresh_Pepper",
  "Fresh_Pork",
  "Fresh_Potato",
  "Fresh_Strawberry",
  "Rotten_Apple",
  "Rotten_Banana",
  "Rotten_Beef",
  "Rotten_Carrot",
  "Rotten_Chicken",
  "Rotten_Cucumber",
  "Rotten_Manggo",
  "Rotten_Okra",
  "Rotten_Orange",
  "Rotten_Pepper",
  "Rotten_Pork",
  "Rotten_Potato",
  "Rotten_Strawberry"]

namespace ImageProcessor

/-- A decoded detection as built by `ImageProcessor.postprocess`
(imageProcessor.js).  The `storage_info` enrichment field is orthogonal to
the geometric and scoring claims and is not carried here. -/
structure Det where
  x : ℝ
  y : ℝ
  width : ℝ
  height : ℝ
  confidence : ℝ
  class_id : ℕ
  label : String

/-- Model of the helper `sigmoid = (x) => 1 / (1 + Math.exp(-x))`. -/
noncomputable def sigmoid (x : ℝ) : ℝ := 1 / (1 + Real.exp (-x))

/-- Model of `Math.max(...arr)` on a non-empty list (the only way the code
uses it); `0` is returned for the empty list, which the code never asks. -/
def maxList : List ℝ → ℝ
  | [] => 0
  | x :: xs => xs.foldl max x

/-- Model of the helper `softmax`: subtract the row maximum, exponentiate,
normalise by the sum. -/
noncomputable def softmax (arr : List ℝ) : List ℝ :=
  let m := maxList arr
  let exps := arr.map (fun v => Real.exp (v - m))
  let sum := exps.sum
  exps.map (fun e => e / sum)

/-- Spec-side plain softmax (no max subtraction), used to state that the
implemented numerically-stable variant computes the same probabilities. -/
noncomputable def softmaxSpec (arr : List ℝ) : List ℝ :=
  arr.map (fun v => Real.exp v / (arr.map Real.exp).sum)

/-- The scan of `classProbs` for the best class: start from index 0 with
`bestClassProb = classProbs[0]`, update on strictly larger entries.
`go qs k bi bv` processes remaining entries `qs` starting at index `k`
with current best index `bi` and value `bv`. -/
noncomputable def bestScanGo : List ℝ → ℕ → ℕ → ℝ → ℕ × ℝ
  | [], _, bi, bv => (bi, bv)
  | q :: qs, k, bi, bv =>
    if bv < q then bestScanGo qs (k + 1) k q else bestScanGo qs (k + 1) bi bv

/-- Model of the best-class scan of `ImageProcessor.postprocess`:
`bestClass = 0`, `bestClassProb = classProbs[0]`, then a strict-greater
scan from index 1. -/
noncomputable def bestScan (probs : List ℝ) : ℕ × ℝ :=
  match probs with
  | [] => (0, 0)
  | p :: rest => bestScanGo rest 1 0 p

/-- The class-score slice of one raw prediction row:
`min(numAttributes - 5, CLASS_NAMES.length)` entries starting at
`offset + 5` (natural subtraction makes rows with fewer than 5 attributes
contribute no entries, as the JS `Math.min` with a negative bound does). -/
def classScoresOf (numAttributes : ℕ) (data : ℕ → ℝ) (offset : ℕ) : List ℝ :=
  (List.range (min (numAttributes - 5) CLASS_NAMES.length)).map
    (fun j => data (offset + 5 + j))

/-- Label resolution of `ImageProcessor.postprocess`: the guard maps any
out-of-range best class to `Unknown_<index>` instead of indexing out of
bounds (over `ℕ` the `null`/negative arms of the JS guard are
unrepresentable; the scan below never produces them). -/
def labelOfIdx (bestClass : ℕ) : String :=
  if h : bestClass < CLASS_NAMES.length then CLASS_NAMES.get ⟨bestClass, h⟩
  else "Unknown_" ++ (toString bestClass)

/-- Decode of one raw prediction row of `ImageProcessor.postprocess`
(probabilistic mode): softmax class probabilities, sigmoid objectness,
final confidence `sigmoid(objectness) * bestClassProb` clamped to `[0,1]`,
kept when `finalConf >= confThreshold`.  Rows with no usable class-score
entry are skipped (`none`). -/
noncomputable def decodeRow (numAttributes : ℕ) (data : ℕ → ℝ) (confThreshold : ℝ)
    (offset : ℕ) : Option Det :=
  if (classScoresOf numAttributes data offset).length = 0 then none
  else if confThreshold ≤ max 0 (min 1 (sigmoid (data (offset + 4)) *
      (bestScan (softmax (classScoresOf numAttributes data offset))).2)) then
    some ⟨data offset, data (offset + 1), data (offset + 2), data (offset + 3),
      max 0 (min 1 (sigmoid (data (offset + 4)) *
        (bestScan (softmax (classScoresOf numAttributes data offset))).2)),
      (bestScan (softmax (classScoresOf numAttributes data offset))).1,
      labelOfIdx (bestScan (softmax (classScoresOf numAttributes data offset))).1⟩
  else none

/-- The decode loop of `ImageProcessor.postprocess`: all surviving
detections, in row order — exactly the list handed to
`nonMaxSuppression`. -/
noncomputable def decodeAll (numPredictions numAttributes : ℕ) (data : ℕ → ℝ)
    (confThreshold : ℝ) : List Det :=
  (List.range numPredictions).filterMap
    (fun i => decodeRow numAttributes data confThreshold (i * numAttributes))

/-- The intersection area of the `iou` helper: overlap extents clamped at
zero before multiplying. -/
noncomputable def interArea (a b : Det) : ℝ :=
  let xA := max a.x b.x
  let yA := max a.y b.y
  let xB := min (a.x + a.width) (b.x + b.width)
  let yB := min (a.y + a.height) (b.y + b.height)
  max 0 (xB - xA) * max 0 (yB - yA)

/-- Model of the `iou` helper of `nonMaxSuppression`:
`interArea / (boxAArea + boxBArea - interArea)`.  Lean's division is total
(`x / 0 = 0`); in JavaScript a zero denominator yields `NaN` instead, and
the claims about degenerate boxes treat this divergence explicitly. -/
noncomputable def iou (a b : Det) : ℝ :=
  interArea a b / (a.width * a.height + b.width * b.height - interArea a b)

/-- Stable descending insertion used to model
`boxes.sort((a, b) => b.confidence - a.confidence)` (ECMAScript sort is
stable, and a stable sort is unique, so insertion sort is extensionally
the JS sort). -/
noncomputable def insertDesc (d : Det) : List Det → List Det
  | [] => [d]
  | b :: rest =>
    if b.confidence ≤ d.confidence then d :: b :: rest else b :: insertDesc d rest

/-- Stable sort by descending confidence. -/
noncomputable def sortDesc (l : List Det) : List Det := l.foldr insertDesc []

/-- Model of `boxes.filter((b) => iou(current, b) < threshold)`. -/
noncomputable def sieve (current : Det) (threshold : ℝ) (l : List Det) : List Det :=
  l.filter (fun b => decide (iou current b < threshold))

/-- The `while (boxes.length > 0)` loop of `nonMaxSuppression`: select the
head, drop every remaining box whose IoU with it reaches the threshold,
repeat. -/
noncomputable def nmsLoop (threshold : ℝ) : List Det → List Det
  | [] => []
  | b :: rest => b :: nmsLoop threshold (sieve b threshold rest)
termination_by l => l.length
decreasing_by
  exact Nat.lt_succ_of_le (List.length_filter_le _ rest)

/-- Model of `ImageProcessor.nonMaxSuppression`: sort by descending
confidence, then greedily select and suppress. -/
noncomputable def nonMaxSuppression (boxes : List Det) (threshold : ℝ) : List Det :=
  nmsLoop threshold (sortDesc boxes)

/-- Model of the full `ImageProcessor.postprocess` pipeline: decode all
rows, then apply non-maximum suppression. -/
noncomputable def postprocess (numPredictions numAttributes : ℕ) (data : ℕ → ℝ)
    (confThreshold nmsThreshold : ℝ) : List Det :=
  nonMaxSuppression (decodeAll numPredictions numAttributes data confThreshold)
    nmsThreshold

end ImageProcessor

namespace Part001

/-- A detection as built by the `postprocess` of src/unnamed/part_001:
`{ className, confidence, bbox }`.  The JS stores `score.toFixed(2)`
(a 2-decimal string); the model keeps the underlying score, which is the
value the threshold test inspects. -/
structure Det where
  className : String
  confidence : ℝ
  bbox : List ℝ

/-- The best-class scan of part_001: `bestScore = 0`, `bestClass = -1`,
update on strictly larger raw scores.  `scanRaw scores j best bv` processes
the remaining scores starting at class index `j`. -/
noncomputable def scanRaw : List ℝ → ℕ → ℤ → ℝ → ℤ × ℝ
  | [], _, best, bv => (best, bv)
  | s :: rest, j, best, bv =>
    if bv < s then scanRaw rest (j + 1) (Int.ofNat j) s
    else scanRaw rest (j + 1) best bv

/-- The full best-class scan over the 26 class scores of a row. -/
noncomputable def scan001 (scores : List ℝ) : ℤ × ℝ := scanRaw scores 0 (-1) 0

/-- Label resolution of part_001: `CLASS_NAMES[bestClass] || "Unknown"` —
out-of-range (in particular the `-1` sentinel) degrades to the plain
string `"Unknown"`. -/
def className001 (bestClass : ℤ) : String :=
  if h : 0 ≤ bestClass ∧ bestClass.toNat < CLASS_NAMES.length then
    CLASS_NAMES.get ⟨bestClass.toNat, h.2⟩
  else "Unknown"

/-- The class-score slice of one part_001 row (attribute layout
`[x, y, w, h, objectness, score_0 .. score_25]`, 31 attributes). -/
noncomputable def scoresOf (outputData : List ℝ) (offset : ℕ) : List ℝ :=
  (List.range CLASS_NAMES.length).map (fun j => outputData.getD (offset + 5 + j) 0)

/-- Decode of one part_001 row: `score = objectness * bestScore`, kept only
when `score > threshold` (strict). -/
noncomputable def rowDecode001 (outputData : List ℝ) (threshold : ℝ) (i : ℕ) :
    Option Det :=
  if threshold < outputData.getD (i * (5 + CLASS_NAMES.length) + 4) 0 *
      (scan001 (scoresOf outputData (i * (5 + CLASS_NAMES.length)))).2 then
    some ⟨className001 (scan001 (scoresOf outputData (i * (5 + CLASS_NAMES.length)))).1,
      outputData.getD (i * (5 + CLASS_NAMES.length) + 4) 0 *
        (scan001 (scoresOf outputData (i * (5 + CLASS_NAMES.length)))).2,
      [outputData.getD (i * (5 + CLASS_NAMES.length)) 0,
       outputData.getD (i * (5 + CLASS_NAMES.length) + 1) 0,
       outputData.getD (i * (5 + CLASS_NAMES.length) + 2) 0,
       outputData.getD (i * (5 + CLASS_NAMES.length) + 3) 0]⟩
  else none

/-- Model of the `postprocess` of part_001.  `numDetections` is
`outputData.length / 31` (floor); the fractional JS rows read past the end
of the array, produce `NaN` scores and never pass the strict threshold
test, so flooring is output-equivalent. -/
noncomputable def postprocess (outputData : List ℝ) (threshold : ℝ) : List Det :=
  (List.range (outputData.length / (5 + CLASS_NAMES.length))).filterMap
    (rowDecode001 outputData threshold)

end Part001

namespace Part003

/-- A detection as built by the `postprocess` of src/unnamed/part_003:
the stored `confidence` is the raw objectness scalar and `class_id` may be
`null` (no positive class score).  The `storage_info` enrichment is
orthogonal to the claims and not carried. -/
structure Det where
  x : ℝ
  y : ℝ
  width : ℝ
  height : ℝ
  confidence : ℝ
  class_id : Option ℕ
  label : String

/-- The best-class scan of part_003: `bestScore = 0`, `bestClass = null`,
update on strictly larger raw scores. -/
noncomputable def scanOpt : List ℝ → ℕ → Option ℕ → ℝ → Option ℕ × ℝ
  | [], _, best, bv => (best, bv)
  | s :: rest, j, best, bv =>
    if bv < s then scanOpt rest (j + 1) (some j) s
    else scanOpt rest (j + 1) best bv

/-- The full best-class scan of one part_003 row. -/
noncomputable def scan003 (scores : List ℝ) : Option ℕ × ℝ := scanOpt scores 0 none 0

/-- Label resolution of part_003:
`Unknown_${bestClass ?? 'na'}` for `null` / out-of-range indices,
otherwise `CLASS_NAMES[bestClass]`. -/
def labelOf003 (bestClass : Option ℕ) : String :=
  match bestClass with
  | none => "Unknown_na"
  | some k =>
    if h : k < CLASS_NAMES.length then CLASS_NAMES.get ⟨k, h⟩
    else "Unknown_" ++ (toString k)

/-- The class-score slice of one part_003 row:
`min(numAttributes - 5, CLASS_NAMES.length)` entries after the box and
objectness attributes. -/
def scores003 (numAttributes : ℕ) (data : ℕ → ℝ) (offset : ℕ) : List ℝ :=
  (List.range (min (numAttributes - 5) CLASS_NAMES.length)).map
    (fun j => data (offset + 5 + j))

/-- Decode of one part_003 row: the row is pre-filtered on the raw
objectness scalar alone (`conf >= CONFIDENCE_THRESHOLD`, non-strict) and
the stored confidence is that scalar; the class scan only chooses the
label. -/
noncomputable def decodeRow (numAttributes : ℕ) (data : ℕ → ℝ) (confThreshold : ℝ)
    (offset : ℕ) : Option Det :=
  if confThreshold ≤ data (offset + 4) then
    some ⟨data offset, data (offset + 1), data (offset + 2), data (offset + 3),
      data (offset + 4), (scan003 (scores003 numAttributes data offset)).1,
      labelOf003 (scan003 (scores003 numAttributes data offset)).1⟩
  else none

/-- The decode loop of part_003's `postprocess` — the detections list that
its (textually identical) `nonMaxSuppression` then consumes. -/
noncomputable def decodeAll (numPredictions numAttributes : ℕ) (data : ℕ → ℝ)
    (confThreshold : ℝ) : List Det :=
  (List.range numPredictions).filterMap
    (fun i => decodeRow numAttributes data confThreshold (i * numAttributes))

end Part003

namespace StorageService

/-- A C6 example override record for the key `Rotten_Apple`: every
informative field of an override present except `source`. -/
def raOverride : Obj := [
  ("storage", JVal.jstr ("Bin it")),
  ("shelf_life", JVal.jnum (0)),
  ("tips", JVal.jstr ("Throw away")),
  ("signs_of_spoilage", JVal.jstr ("Mold")),
  ("status", JVal.jstr ("Rotten")),
  ("waste_disposal", JVal.jstr ("Trash")),
  ("storage_methods", JVal.jmethods [])]

/-- A C6 example active (override) dataset containing only the
`Rotten_Apple` record above. -/
def overrideDataset : Dataset := [("Rotten_Apple", raOverride)]

end StorageService

namespace ImageProcessor

/-- Finite data array as the `ℕ → ℝ` tensor interface: entries of the
list, `0` beyond its end. -/
def dataOf (l : List ℝ) : ℕ → ℝ := fun i => l.getD i 0

/-- Two 6-attribute rows, each with one class score: both decode (at
confidence threshold `1/2`) to zero-width boxes, whose IoU denominator is
zero. -/
noncomputable def zeroWidthData : ℕ → ℝ := dataOf [0, 0, 0, 5, 0, 1, 3, 0, 0, 5, 0, 1]

/-- The first detection decoded from `zeroWidthData`. -/
noncomputable def zDet1 : Det := ⟨0, 0, 0, 5, 1 / 2, 0, "Fresh_Apple"⟩

/-- The second detection decoded from `zeroWidthData`. -/
noncomputable def zDet2 : Det := ⟨3, 0, 0, 5, 1 / 2, 0, "Fresh_Apple"⟩

/-- A single 6-attribute row used by pipeline witnesses. -/
noncomputable def singleRowData : ℕ → ℝ := dataOf [1, 2, 3, 4, 0, 1]

/-- The detection decoded from `singleRowData`. -/
noncomputable def sDet : Det := ⟨1, 2, 3, 4, 1 / 2, 0, "Fresh_Apple"⟩

/-- First box of the C2 boundary example: unit box at the origin,
confidence `9/10`. -/
noncomputable def bxA : Det := ⟨0, 0, 1, 1, 9 / 10, 0, "Fresh_Apple"⟩

/-- Second box of the C2 boundary example: unit box shifted by `1/2`,
confidence `8/10`; its IoU with `bxA` is exactly `1/3`. -/
noncomputable def bxB : Det := ⟨1 / 2, 0, 1, 1, 8 / 10, 0, "Fresh_Apple"⟩

/-- A zero-width box used by the C5 witness. -/
noncomputable def zw : Det := ⟨2, 3, 0, 7, 9 / 10, 0, "Fresh_Apple"⟩

end ImageProcessor

namespace Part001

/-- One complete part_001 row (31 attributes): objectness `1/2` and a
single positive class score `1/2`, so `objectness * bestScore` is exactly
the default-style threshold `1/4`. -/
noncomputable def boundaryRow : List ℝ :=
  [0, 0, 10, 10, 1 / 2, 1 / 2] ++ List.replicate 25 0

/-- One complete part_001 row with objectness `1` and all class scores
zero: its best class stays the unresolvable `-1` sentinel. -/
noncomputable def noClassRow : List ℝ :=
  [0, 0, 10, 10, 1] ++ List.replicate 26 0

end Part001

namespace StorageService

/-- Field lookup on a cons cell. -/
theorem getField_cons (p : String × JVal) (o : Obj) (k : String) :
    getField (p :: o) k = if p.1 = k then some p.2 else getField o k := by
  by_cases h : p.1 = k <;>
    simp [getField, List.find?_cons_of_pos, List.find?_cons_of_neg, h]

/-- Field lookup after the mapped half of a spread: keys are unchanged and
values are rewritten to the override value where present. -/
theorem getField_spreadMap (d e : Obj) (k : String) :
    getField (d.map (fun p => (p.1, (getField e p.1).getD p.2))) k =
      (getField d k).map (fun v => (getField e k).getD v) := by
  induction d with
  | nil => rfl
  | cons p d ih =>
    by_cases h : p.1 = k
    · subst h; simp [List.map_cons, getField_cons]
    · simpa [List.map_cons, getField_cons, h] using ih

/-- Field lookup distributes over append as an `Option.or`. -/
theorem getField_append (xs ys : Obj) (k : String) :
    getField (xs ++ ys) k = (getField xs k).or (getField ys k) := by
  induction xs with
  | nil => simp [getField]
  | cons p xs ih =>
    by_cases h : p.1 = k
    · simp [List.cons_append, getField_cons, h]
    · simpa [List.cons_append, getField_cons, h] using ih

/-- Filtering the override on default-key absence does not change a field
that is absent from the default. -/
theorem getField_filter_keep (d e : Obj) (k : String)
    (hd : getField d k = none) :
    getField (e.filter (fun p => (getField d p.1).isNone)) k = getField e k := by
  induction e with
  | nil => rfl
  | cons p e ih =>
    by_cases h : p.1 = k
    · subst h
      simp [List.filter_cons, hd, getField_cons]
    · by_cases hk : (getField d p.1).isNone <;>
        simpa [List.filter_cons, h, hk, getField_cons] using ih

/-- Spread semantics, field by field: the override value wins where
present, the base value survives where the override is missing. -/
theorem getField_spreadMerge (d e : Obj) (k : String) :
    getField (spreadMerge d e) k = (getField e k).or (getField d k) := by
  unfold spreadMerge
  rw [getField_append, getField_spreadMap]
  cases hd : getField d k with
  | some v =>
    cases he : getField e k <;> simp [Option.or, he]
  | none =>
    rw [getField_filter_keep d e k hd]
    cases he : getField e k <;> simp [Option.or]

/-- Replacing the binding of one key in place: the replaced key reads the
new value (when it was present) and other keys are unchanged. -/
theorem getField_replaceKey (k : String) (v : JVal) (o : Obj) (k' : String) :
    getField (o.map (fun p => if p.1 = k then (k, v) else p)) k' =
      if k' = k then (getField o k).map (fun _ => v) else getField o k' := by
  induction o with
  | nil => by_cases h : k' = k <;> simp [getField, h]
  | cons p o ih =>
    simp only [List.map_cons]
    by_cases hp : p.1 = k
    · rw [if_pos hp]
      by_cases hk : k' = k
      · subst hk
        rw [if_pos rfl, getField_cons, getField_cons, if_pos hp]
        simp
      · have h1 : ¬(k, v).1 = k' := fun hE => hk hE.symm
        have h2 : ¬p.1 = k' := by rw [hp]; exact fun hE => hk hE.symm
        rw [if_neg hk, getField_cons, if_neg h1, getField_cons, if_neg h2]
        rw [ih, if_neg hk]
    · rw [if_neg hp]
      rw [getField_cons]
      by_cases hh : p.1 = k'
      · have hk : ¬k' = k := fun hE => hp (by rw [hh, hE])
        rw [if_pos hh, if_neg hk, getField_cons, if_pos hh]
      · rw [if_neg hh]
        by_cases hk : k' = k
        · subst hk
          rw [if_pos rfl] at ih ⊢
          rw [ih, getField_cons, if_neg hp]
        · rw [if_neg hk] at ih ⊢
          rw [ih, getField_cons, if_neg hh]

/-- Explicitly setting a field: the set field reads back the set value and
every other field is unchanged. -/
theorem getField_setKey (k : String) (v : JVal) (o : Obj) (k' : String) :
    getField (setKey k v o) k' = if k' = k then some v else getField o k' := by
  unfold setKey
  by_cases hs : (getField o k).isSome
  · rw [if_pos hs, getField_replaceKey]
    obtain ⟨w, hw⟩ := Option.isSome_iff_exists.mp hs
    by_cases hk : k' = k <;> simp [hk, hw]
  · rw [if_neg hs, getField_append]
    by_cases h2 : k' = k
    · have hn : getField o k = none := Option.not_isSome_iff_eq_none.mp hs
      rw [if_pos h2, h2, hn, Option.none_or, getField_cons, if_pos rfl]
    · have h1 : ¬k = k' := fun hE => h2 hE.symm
      rw [if_neg h2, getField_cons, if_neg h1,
        show getField ([] : Obj) k' = none from rfl, Option.or_none]

/-- Unwrapping the backfill chain: with a final constant fallback the
null-coalescing chain is always a `some`. -/
theorem coal_chain_some (a b : Option JVal) (v : JVal) :
    some ((coal a (coal b (some v))).getD JVal.jnull) = coal a (coal b (some v)) := by
  cases a with
  | none =>
    cases b with
    | none => rfl
    | some w => cases w <;> rfl
  | some w =>
    cases w with
    | jnull =>
      cases b with
      | none => rfl
      | some u => cases u <;> rfl
    | jstr s => rfl
    | jnum n => rfl
    | jmethods ms => rfl
    | jempty => rfl

/-- The merged record on any non-backfilled field: override first, then
default. -/
theorem mergedResult_other (d e : Obj) (k : String)
    (h1 : k ≠ "storage_methods") (h2 : k ≠ "ripeness_guide")
    (h3 : k ≠ "preparation_tips") (h4 : k ≠ "source") :
    getField (mergedResult d e) k = (getField e k).or (getField d k) := by
  unfold mergedResult
  rw [getField_setKey, if_neg h4, getField_setKey, if_neg h3,
    getField_setKey, if_neg h2, getField_setKey, if_neg h1, getField_spreadMerge]

/-- The merged record's `source` field: override unless null/absent, then
default, then the literal `"Unknown"`. -/
theorem mergedResult_source (d e : Obj) :
    getField (mergedResult d e) ("source") =
      coal (getField e ("source"))
        (coal (getField d ("source")) (some (JVal.jstr ("Unknown")))) := by
  unfold mergedResult
  rw [getField_setKey, if_pos rfl, coal_chain_some]

/-- The merged record's `storage_methods` field: override unless
null/absent, then default, then the empty array. -/
theorem mergedResult_storage_methods (d e : Obj) :
    getField (mergedResult d e) ("storage_methods") =
      coal (getField e ("storage_methods"))
        (coal (getField d ("storage_methods")) (some (JVal.jmethods []))) := by
  unfold mergedResult
  rw [getField_setKey, if_neg (by decide), getField_setKey, if_neg (by decide),
    getField_setKey, if_neg (by decide), getField_setKey, if_pos rfl,
    coal_chain_some]

end StorageService

namespace StorageService

/-- A label matching no key exactly and no key case-insensitively finds no
entry. -/
theorem lookupEntry_eq_none (active : Dataset) (n : String)
    (h : ∀ p ∈ active, ¬(p.1 = n) ∧ ¬(lowerS p.1 = lowerS n)) :
    lookupEntry active n = none := by
  have hf1 : active.find? (fun p => p.1 = n) = none :=
    List.find?_eq_none.mpr (fun p hp => by simpa using (h p hp).1)
  have hf2 : active.find? (fun p => lowerS p.1 = lowerS n) = none :=
    List.find?_eq_none.mpr (fun p hp => by simpa using (h p hp).2)
  have hg : datasetGet active n = none := by
    unfold datasetGet; rw [hf1]; rfl
  unfold lookupEntry
  rw [hg, hf2]
  rfl

end StorageService

open StorageService in
/-- C6: when a record found for a key in the active (override) dataset is
missing optional fields, lookup returns the merge of the found entry over
the built-in default record for the normalised key: on ordinary fields the
override value wins and missing fields are backfilled from the default
(nothing present only in the default is lost), and the
`source` / `storage_methods` fields are additionally backfilled through
the null-coalescing chain with their literal fallbacks. -/
theorem C6_lookup_merges_override_over_default
    (active dflt : Dataset) (s : String) (entry : Obj)
    (hs : s ≠ "")
    (hl : lookupEntry active (normalizeLabelS s) = some entry) :
    getStorageData active dflt (JsArg.str s) =
      LookupResult.record
        (mergedResult ((datasetGet dflt (normalizeLabelS s)).getD []) entry) ∧
    (∀ k : String, k ≠ "storage_methods" → k ≠ "ripeness_guide" →
      k ≠ "preparation_tips" → k ≠ "source" →
      getField (mergedResult ((datasetGet dflt (normalizeLabelS s)).getD []) entry) k =
        (getField entry k).or
          (getField ((datasetGet dflt (normalizeLabelS s)).getD []) k)) ∧
    getField (mergedResult ((datasetGet dflt (normalizeLabelS s)).getD []) entry)
        ("source") =
      coal (getField entry ("source"))
        (coal (getField ((datasetGet dflt (normalizeLabelS s)).getD []) ("source"))
          (some (JVal.jstr ("Unknown")))) ∧
    getField (mergedResult ((datasetGet dflt (normalizeLabelS s)).getD []) entry)
        ("storage_methods") =
      coal (getField entry ("storage_methods"))
        (coal (getField ((datasetGet dflt (normalizeLabelS s)).getD [])
            ("storage_methods"))
          (some (JVal.jmethods []))) := by
  refine ⟨?_, ?_, mergedResult_source _ _, mergedResult_storage_methods _ _⟩
  · simp only [getStorageData, if_neg hs, hl]
  · intro k h1 h2 h3 h4
    exact mergedResult_other _ _ k h1 h2 h3 h4

open StorageService in
/-- C6 witness: an override dataset whose `Rotten_Apple` record is missing
only `source` yields a merged record whose `source` comes from the built-in
default and whose other fields come from the override. -/
theorem C6_witness :
    ("Rotten_Apple" : String) ≠ "" ∧
    lookupEntry overrideDataset (normalizeLabelS ("Rotten_Apple")) = some raOverride ∧
    getStorageData overrideDataset DEFAULT_STORAGE_DATA (JsArg.str ("Rotten_Apple")) =
      LookupResult.record
        (mergedResult
          ((datasetGet DEFAULT_STORAGE_DATA (normalizeLabelS ("Rotten_Apple"))).getD [])
          raOverride) ∧
    getField
        (mergedResult
          ((datasetGet DEFAULT_STORAGE_DATA (normalizeLabelS ("Rotten_Apple"))).getD [])
          raOverride) ("source") =
      some (JVal.jstr ("USDA & University of Maine Cooperative Extension")) ∧
    getField
        (mergedResult
          ((datasetGet DEFAULT_STORAGE_DATA (normalizeLabelS ("Rotten_Apple"))).getD [])
          raOverride) ("storage") =
      some (JVal.jstr ("Bin it")) := by
  have h := C6_lookup_merges_override_over_default overrideDataset DEFAULT_STORAGE_DATA
    ("Rotten_Apple") raOverride (by decide) (by rfl)
  refine ⟨by decide, by rfl, h.1, ?_, ?_⟩
  · rw [h.2.2.1]; rfl
  · rw [h.2.1 ("storage") (by decide) (by decide) (by decide) (by decide)]; rfl


open StorageService in
/-- C8: looking up a label matching no dataset key — neither exactly nor
case-insensitively after normalisation — returns `null` (the model is
total, so no exception can be raised), and looking `Rotten_Apple` up in
the built-in dataset returns a record with status `Rotten` and shelf life
`0` days. -/
theorem C8_unknown_null_rotten_apple
    (active dflt : Dataset) (s : String)
    (h : ∀ p ∈ active, ¬(p.1 = normalizeLabelS s) ∧
      ¬(lowerS p.1 = lowerS (normalizeLabelS s))) :
    getStorageData active dflt (JsArg.str s) = LookupResult.nullRes ∧
    ∃ r : Obj,
      getStorageData DEFAULT_STORAGE_DATA DEFAULT_STORAGE_DATA
          (JsArg.str ("Rotten_Apple")) = LookupResult.record r ∧
      getField r ("status") = some (JVal.jstr ("Rotten")) ∧
      getField r ("shelf_life") = some (JVal.jnum (0)) := by
  constructor
  · by_cases hs : s = ""
    · simp [getStorageData, hs]
    · simp only [getStorageData, if_neg hs,
        lookupEntry_eq_none active (normalizeLabelS s) h]
  · exact ⟨_, rfl, by rfl, by rfl⟩

open StorageService in
/-- C8 witness: the label `Dragonfruit` matches no key of the built-in
dataset, and the lookup returns `null`. -/
theorem C8_witness :
    (∀ p ∈ DEFAULT_STORAGE_DATA, ¬(p.1 = normalizeLabelS ("Dragonfruit")) ∧
      ¬(lowerS p.1 = lowerS (normalizeLabelS ("Dragonfruit")))) ∧
    getStorageData DEFAULT_STORAGE_DATA DEFAULT_STORAGE_DATA
      (JsArg.str ("Dragonfruit")) = LookupResult.nullRes :=
  ⟨by decide, (C8_unknown_null_rotten_apple DEFAULT_STORAGE_DATA DEFAULT_STORAGE_DATA
    ("Dragonfruit") (by decide)).1⟩

open StorageService in
/-- C10: `getStorageData` called with `undefined` or `null` returns the
whole active dataset (the full label-to-record map, by construction
neither `null` nor a single record), while any non-string argument —
truthy or not — returns `null`. -/
theorem C10_argument_shapes (active dflt : Dataset) :
    getStorageData active dflt JsArg.undef = LookupResult.dataset active ∧
    getStorageData active dflt JsArg.nul = LookupResult.dataset active ∧
    ∀ b : Bool, getStorageData active dflt (JsArg.nonString b) = LookupResult.nullRes :=
  ⟨rfl, rfl, fun _ => rfl⟩

namespace StorageService

/-- Valid code points round-trip through `Char.ofNat`. -/
theorem toNat_ofNat_valid (n : ℕ) (h : n.isValidChar) : (Char.ofNat n).toNat = n := by
  unfold Char.ofNat
  rw [dif_pos h]
  rfl

/-- Characters are determined by their code points. -/
theorem char_eq_iff_toNat (a b : Char) : a = b ↔ a.toNat = b.toNat := by
  constructor
  · intro h; rw [h]
  · intro h
    apply Char.ext
    apply UInt32.ext
    simpa [Char.toNat] using h

/-- Code-point description of `Char.toUpper` (ASCII). -/
theorem toNat_toUpper (c : Char) :
    c.toUpper.toNat = if c.toNat ≥ 97 ∧ c.toNat ≤ 122 then c.toNat - 32 else c.toNat := by
  have hd : Char.toUpper c =
      if c.toNat ≥ 97 ∧ c.toNat ≤ 122 then Char.ofNat (c.toNat - 32) else c := rfl
  rw [hd]
  by_cases h : c.toNat ≥ 97 ∧ c.toNat ≤ 122
  · rw [if_pos h, if_pos h, toNat_ofNat_valid _ (Or.inl (by omega))]
  · rw [if_neg h, if_neg h]

/-- Code-point description of `Char.toLower` (ASCII). -/
theorem toNat_toLower (c : Char) :
    c.toLower.toNat = if c.toNat ≥ 65 ∧ c.toNat ≤ 90 then c.toNat + 32 else c.toNat := by
  have hd : Char.toLower c =
      if c.toNat ≥ 65 ∧ c.toNat ≤ 90 then Char.ofNat (c.toNat + 32) else c := rfl
  rw [hd]
  by_cases h : c.toNat ≥ 65 ∧ c.toNat ≤ 90
  · rw [if_pos h, if_pos h, toNat_ofNat_valid _ (Or.inl (by omega))]
  · rw [if_neg h, if_neg h]

/-- The ASCII upper-casing map is idempotent. -/
theorem toUpper_toUpper (c : Char) : c.toUpper.toUpper = c.toUpper := by
  rw [char_eq_iff_toNat]
  simp only [toNat_toUpper]
  split_ifs <;> omega

/-- The ASCII lower-casing map is idempotent. -/
theorem toLower_toLower (c : Char) : c.toLower.toLower = c.toLower := by
  rw [char_eq_iff_toNat]
  simp only [toNat_toLower]
  split_ifs <;> omega

/-- Code-point description of the whitespace test. -/
theorem isWS_iff (c : Char) :
    isWS c = true ↔ (c.toNat = 32 ∨ c.toNat = 9 ∨ c.toNat = 10 ∨
      c.toNat = 13 ∨ c.toNat = 11 ∨ c.toNat = 12) := by
  unfold isWS
  simp only [Bool.or_eq_true, decide_eq_true_eq, char_eq_iff_toNat,
    show (' ').toNat = 32 from rfl, show ('\t').toNat = 9 from rfl,
    show ('\n').toNat = 10 from rfl, show ('\r').toNat = 13 from rfl,
    show ('\x0b').toNat = 11 from rfl, show ('\x0c').toNat = 12 from rfl]
  tauto

/-- Whitespace is stable under upper-casing. -/
theorem isWS_toUpper (c : Char) : isWS c.toUpper = isWS c := by
  rw [Bool.eq_iff_iff, isWS_iff, isWS_iff, toNat_toUpper]
  split_ifs <;> omega

/-- Whitespace is stable under lower-casing. -/
theorem isWS_toLower (c : Char) : isWS c.toLower = isWS c := by
  rw [Bool.eq_iff_iff, isWS_iff, isWS_iff, toNat_toLower]
  split_ifs <;> omega

/-- Upper-casing neither creates nor destroys underscores. -/
theorem toUpper_eq_us (c : Char) : c.toUpper = '_' ↔ c = '_' := by
  rw [char_eq_iff_toNat, char_eq_iff_toNat, toNat_toUpper]
  simp only [show ('_').toNat = 95 from rfl]
  split_ifs <;> omega

/-- Lower-casing neither creates nor destroys underscores. -/
theorem toLower_eq_us (c : Char) : c.toLower = '_' ↔ c = '_' := by
  rw [char_eq_iff_toNat, char_eq_iff_toNat, toNat_toLower]
  simp only [show ('_').toNat = 95 from rfl]
  split_ifs <;> omega

end StorageService


namespace StorageService

/-- `splitU` never returns the empty list of parts. -/
theorem splitU_ne_nil (l : List Char) : splitU l ≠ [] := by
  cases l with
  | nil => simp [splitU]
  | cons c rest =>
    simp only [splitU]
    by_cases hc : c = '_'
    · simp [hc]
    · simp [hc]

/-- Joining the split parts recovers the original string. -/
theorem joinU_splitU (l : List Char) : joinU (splitU l) = l := by
  induction l with
  | nil => rfl
  | cons c rest ih =>
    simp only [splitU]
    by_cases hc : c = '_'
    · subst hc
      rw [if_pos rfl]
      cases h : splitU rest with
      | nil => exact absurd h (splitU_ne_nil rest)
      | cons p ps =>
        rw [h] at ih
        show '_' :: joinU (p :: ps) = '_' :: rest
        rw [ih]
    · rw [if_neg hc]
      cases h : splitU rest with
      | nil => exact absurd h (splitU_ne_nil rest)
      | cons p ps =>
        rw [h] at ih
        cases ps with
        | nil =>
          have hj : joinU [p] = p := rfl
          rw [hj] at ih
          show joinU [c :: p] = c :: rest
          show c :: p = c :: rest
          rw [ih]
        | cons q qs =>
          show joinU ((c :: p) :: q :: qs) = c :: rest
          show (c :: p) ++ '_' :: joinU (q :: qs) = c :: rest
          rw [← ih]
          rfl

/-- Every part produced by `splitU` is underscore-free. -/
theorem splitU_no_us (l : List Char) : ∀ p ∈ splitU l, '_' ∉ p := by
  induction l with
  | nil => intro p hp; simp [splitU] at hp; simp [hp]
  | cons c rest ih =>
    intro p hp
    simp only [splitU] at hp
    by_cases hc : c = '_'
    · rw [if_pos hc] at hp
      rcases List.mem_cons.mp hp with h1 | h1
      · simp [h1]
      · exact ih p h1
    · rw [if_neg hc] at hp
      cases h : splitU rest with
      | nil => exact absurd h (splitU_ne_nil rest)
      | cons q qs =>
        rw [h] at hp
        rcases List.mem_cons.mp hp with h1 | h1
        · subst h1
          intro hm
          rcases List.mem_cons.mp hm with h2 | h2
          · exact hc h2.symm
          · exact ih q (h ▸ List.mem_cons_self q qs) (by simpa using h2)
        · exact ih p (h ▸ List.mem_cons.mpr (Or.inr (by simpa using h1)))

/-- Splitting an underscore-free string gives a single part. -/
theorem splitU_of_no_us (l : List Char) (h : '_' ∉ l) : splitU l = [l] := by
  induction l with
  | nil => rfl
  | cons c rest ih =>
    have hc : ¬c = '_' := fun hE => h (hE ▸ List.mem_cons_self c rest)
    have hr : '_' ∉ rest := fun hm => h (List.mem_cons.mpr (Or.inr hm))
    simp only [splitU, ih hr, if_neg hc]
    rfl

/-- Splitting an underscore-free part followed by a separator peels off
that part. -/
theorem splitU_append_us (p r : List Char) (h : '_' ∉ p) :
    splitU (p ++ '_' :: r) = p :: splitU r := by
  induction p with
  | nil =>
    show splitU ('_' :: r) = [] :: splitU r
    simp [splitU]
  | cons c p ih =>
    have hc : ¬c = '_' := fun hE => h (hE ▸ List.mem_cons_self c p)
    have hp : '_' ∉ p := fun hm => h (List.mem_cons.mpr (Or.inr hm))
    show splitU (c :: (p ++ '_' :: r)) = (c :: p) :: splitU r
    simp only [splitU, if_neg hc, ih hp]
    rfl

/-- Splitting a join of underscore-free parts recovers the parts. -/
theorem splitU_joinU (parts : List (List Char)) (hne : parts ≠ [])
    (h : ∀ p ∈ parts, '_' ∉ p) : splitU (joinU parts) = parts := by
  induction parts with
  | nil => exact absurd rfl hne
  | cons p ps ih =>
    cases ps with
    | nil => exact splitU_of_no_us p (h p (List.mem_cons_self p []))
    | cons q qs =>
      have hj : joinU (p :: q :: qs) = p ++ '_' :: joinU (q :: qs) := rfl
      rw [hj, splitU_append_us p _ (h p (List.mem_cons_self p _)),
        ih (by simp) (fun x hx => h x (List.mem_cons.mpr (Or.inr hx)))]

end StorageService

namespace StorageService

/-- A pattern ending in an underscore is no prefix of an underscore-free
string. -/
theorem marker_no_us (pat : List Char) : ∀ l : List Char, '_' ∉ l →
    (pat ++ ['_']).isPrefixOf l = false := by
  induction pat with
  | nil =>
    intro l hl
    cases l with
    | nil => rfl
    | cons c r =>
      have hc : ¬('_' = c) := fun hE => hl (hE ▸ List.mem_cons_self c r)
      simp [List.isPrefixOf, hc]
  | cons a pat ih =>
    intro l hl
    cases l with
    | nil => rfl
    | cons c r =>
      have hr : '_' ∉ r := fun hm => hl (List.mem_cons.mpr (Or.inr hm))
      simp [List.isPrefixOf, ih r hr]

/-- A pattern followed by an underscore marker is a prefix of
`p ++ '_' :: r` exactly when the lower-cased head segment is the
pattern (both pattern and segment underscore-free). -/
theorem marker_iff (pat : List Char) : ∀ p r : List Char, '_' ∉ pat → '_' ∉ p →
    ((pat ++ ['_']).isPrefixOf (lcList p ++ '_' :: r) = true ↔ lcList p = pat) := by
  induction pat with
  | nil =>
    intro p r _ hp
    cases p with
    | nil => simp [lcList, List.isPrefixOf]
    | cons c p' =>
      have hc : ¬(Char.toLower c = '_') :=
        fun hE => (hp (List.mem_cons.mpr (Or.inl ((toLower_eq_us c).mp hE).symm)))
      have hc2 : ¬('_' = Char.toLower c) := fun hE => hc hE.symm
      simp [lcList, List.isPrefixOf, hc2]
  | cons a pat ih =>
    intro p r hpat hp
    have ha : a ≠ '_' := fun hE => hpat (hE ▸ List.mem_cons_self a pat)
    have hpat' : '_' ∉ pat := fun hm => hpat (List.mem_cons.mpr (Or.inr hm))
    cases p with
    | nil =>
      have hne : ¬(a = '_') := ha
      simp [lcList, List.isPrefixOf, hne]
    | cons c p' =>
      have hp' : '_' ∉ p' := fun hm => hp (List.mem_cons.mpr (Or.inr hm))
      show ((a == Char.toLower c) && (pat ++ ['_']).isPrefixOf (lcList p' ++ '_' :: r))
          = true ↔ Char.toLower c :: lcList p' = a :: pat
      rw [Bool.and_eq_true, beq_iff_eq, ih p' r hpat' hp']
      constructor
      · rintro ⟨h1, h2⟩; rw [h1, h2]
      · intro h
        have h1 := List.head_eq_of_cons_eq h
        have h2 := List.tail_eq_of_cons_eq h
        exact ⟨h1.symm, h2⟩

end StorageService

namespace StorageService

/-- Lower-casing distributes over the underscore layout. -/
theorem lcList_append_us (p r : List Char) :
    lcList (p ++ '_' :: r) = lcList p ++ '_' :: lcList r := by
  simp [lcList, List.map_append]

/-- Capitalisation is idempotent. -/
theorem cap_cap (l : List Char) : cap (cap l) = cap l := by
  cases l with
  | nil => rfl
  | cons c rest =>
    simp only [cap, toUpper_toUpper, List.map_map]
    congr 1
    apply List.map_congr_left
    intro a _
    exact toLower_toLower a

/-- Capitalisation keeps a segment underscore-free. -/
theorem cap_no_us (l : List Char) (h : '_' ∉ l) : '_' ∉ cap l := by
  cases l with
  | nil => simp [cap]
  | cons c rest =>
    intro hm
    simp only [cap] at hm
    rcases List.mem_cons.mp hm with h1 | h1
    · exact h (List.mem_cons.mpr (Or.inl ((toUpper_eq_us c).mp h1.symm).symm))
    · rcases List.mem_map.mp h1 with ⟨a, ha, hlow⟩
      exact h (List.mem_cons.mpr (Or.inr (((toLower_eq_us a).mp hlow) ▸ ha)))

/-- Capitalisation never empties a non-empty segment, and vice versa. -/
theorem cap_eq_nil (l : List Char) : cap l = [] ↔ l = [] := by
  cases l <;> simp [cap]

/-- `fixHead` is idempotent. -/
theorem fixHead_fixHead (p : List Char) : fixHead (fixHead p) = fixHead p := by
  unfold fixHead
  by_cases h1 : lcList p = "fresh".toList
  · rw [if_pos h1, if_pos (by decide)]
  · rw [if_neg h1]
    by_cases h2 : lcList p = "rotten".toList
    · rw [if_pos h2, if_neg (by decide), if_pos (by decide)]
    · rw [if_neg h2, if_neg h1, if_neg h2]

/-- `fixHead` keeps the head segment underscore-free. -/
theorem fixHead_no_us (p : List Char) (h : '_' ∉ p) : '_' ∉ fixHead p := by
  unfold fixHead
  by_cases h1 : lcList p = "fresh".toList
  · rw [if_pos h1]; decide
  · rw [if_neg h1]
    by_cases h2 : lcList p = "rotten".toList
    · rw [if_pos h2]; decide
    · rw [if_neg h2]; exact h

/-- `normParts` is idempotent. -/
theorem normParts_idem (parts : List (List Char)) :
    normParts (normParts parts) = normParts parts := by
  match parts with
  | [] => rfl
  | [p] => rfl
  | p0 :: p1 :: ps =>
    show normParts (fixHead p0 :: cap p1 :: ps) = _
    show fixHead (fixHead p0) :: cap (cap p1) :: ps = fixHead p0 :: cap p1 :: ps
    rw [fixHead_fixHead, cap_cap]

/-- `normParts` keeps all segments underscore-free. -/
theorem normParts_no_us (parts : List (List Char)) (h : ∀ p ∈ parts, '_' ∉ p) :
    ∀ p ∈ normParts parts, '_' ∉ p := by
  match parts with
  | [] => exact h
  | [p] => exact h
  | p0 :: p1 :: ps =>
    show ∀ p ∈ fixHead p0 :: cap p1 :: ps, '_' ∉ p
    intro p hp
    rcases List.mem_cons.mp hp with h1 | h1
    · exact h1 ▸ fixHead_no_us p0 (h p0 (List.mem_cons_self _ _))
    · rcases List.mem_cons.mp h1 with h2 | h2
      · exact h2 ▸ cap_no_us p1 (h p1 (List.mem_cons.mpr (Or.inr (List.mem_cons_self _ _))))
      · exact h p (List.mem_cons.mpr (Or.inr (List.mem_cons.mpr (Or.inr h2))))

/-- `normParts` maps non-empty part lists to non-empty part lists. -/
theorem normParts_ne_nil (parts : List (List Char)) (h : parts ≠ []) :
    normParts parts ≠ [] := by
  match parts with
  | [] => exact absurd rfl h
  | [p] => simp [normParts]
  | p0 :: p1 :: ps => simp [normParts]

end StorageService

namespace StorageService

/-- On a string with at least two underscore-delimited segments, the
prefix step acts exactly as `fixHead` on the first segment. -/
theorem headRewrite_parts (p0 p1 : List Char) (ps : List (List Char))
    (h0 : '_' ∉ p0) :
    headRewrite (joinU (p0 :: p1 :: ps)) = joinU (fixHead p0 :: p1 :: ps) := by
  have hj : joinU (p0 :: p1 :: ps) = p0 ++ '_' :: joinU (p1 :: ps) := rfl
  unfold headRewrite fixHead
  rw [hj, lcList_append_us]
  by_cases h1 : lcList p0 = "fresh".toList
  · have hlen : p0.length = 5 := by
      have := congrArg List.length h1
      simpa [lcList] using this
    have hpre : ("fresh_".toList).isPrefixOf (lcList p0 ++ '_' :: lcList (joinU (p1 :: ps)))
        = true := by
      rw [show "fresh_".toList = "fresh".toList ++ ['_'] from rfl]
      exact (marker_iff ("fresh".toList) p0 _ (by decide) h0).mpr h1
    rw [if_pos hpre, if_pos h1]
    have hdrop : (p0 ++ '_' :: joinU (p1 :: ps)).drop 6 = joinU (p1 :: ps) := by
      rw [show p0 ++ '_' :: joinU (p1 :: ps) = (p0 ++ ['_']) ++ joinU (p1 :: ps) by simp,
        show (6 : ℕ) = (p0 ++ ['_']).length by simp [hlen]]
      exact List.drop_left _ _
    rw [hdrop]
    rfl
  · have hpre1 : ("fresh_".toList).isPrefixOf (lcList p0 ++ '_' :: lcList (joinU (p1 :: ps)))
        = false := by
      rw [show "fresh_".toList = "fresh".toList ++ ['_'] from rfl]
      rw [← Bool.not_eq_true]
      intro hh
      exact h1 ((marker_iff ("fresh".toList) p0 _ (by decide) h0).mp hh)
    rw [hpre1, if_neg (by simp), if_neg h1]
    by_cases h2 : lcList p0 = "rotten".toList
    · have hlen : p0.length = 6 := by
        have := congrArg List.length h2
        simpa [lcList] using this
      have hpre : ("rotten_".toList).isPrefixOf (lcList p0 ++ '_' :: lcList (joinU (p1 :: ps)))
          = true := by
        rw [show "rotten_".toList = "rotten".toList ++ ['_'] from rfl]
        exact (marker_iff ("rotten".toList) p0 _ (by decide) h0).mpr h2
      rw [if_pos hpre, if_pos h2]
      have hdrop : (p0 ++ '_' :: joinU (p1 :: ps)).drop 7 = joinU (p1 :: ps) := by
        rw [show p0 ++ '_' :: joinU (p1 :: ps) = (p0 ++ ['_']) ++ joinU (p1 :: ps) by simp,
          show (7 : ℕ) = (p0 ++ ['_']).length by simp [hlen]]
        exact List.drop_left _ _
      rw [hdrop]
      rfl
    · have hpre2 : ("rotten_".toList).isPrefixOf (lcList p0 ++ '_' :: lcList (joinU (p1 :: ps)))
          = false := by
        rw [show "rotten_".toList = "rotten".toList ++ ['_'] from rfl]
        rw [← Bool.not_eq_true]
        intro hh
        exact h2 ((marker_iff ("rotten".toList) p0 _ (by decide) h0).mp hh)
      rw [hpre2, if_neg (by simp), if_neg h2]
      exact hj.symm

/-- On an underscore-free string the prefix step does nothing. -/
theorem headRewrite_single (t : List Char) (h : '_' ∉ t) : headRewrite t = t := by
  unfold headRewrite
  have hl : '_' ∉ lcList t := by
    intro hm
    rcases List.mem_map.mp hm with ⟨a, ha, hlow⟩
    exact h (((toLower_eq_us a).mp hlow) ▸ ha)
  rw [show "fresh_".toList = "fresh".toList ++ ['_'] from rfl,
    marker_no_us ("fresh".toList) (lcList t) hl, if_neg (by simp),
    show "rotten_".toList = "rotten".toList ++ ['_'] from rfl,
    marker_no_us ("rotten".toList) (lcList t) hl, if_neg (by simp)]

/-- After trimming, `normalizeLabel` acts on a string as `normParts` acts
on its underscore-split parts. -/
theorem capSecond_headRewrite_eq (t : List Char) :
    capSecond (headRewrite t) = joinU (normParts (splitU t)) := by
  cases h : splitU t with
  | nil => exact absurd h (splitU_ne_nil t)
  | cons p0 ps0 =>
    have hjoin : joinU (p0 :: ps0) = t := by rw [← h]; exact joinU_splitU t
    cases ps0 with
    | nil =>
      have ht : t = p0 := by rw [← hjoin]; rfl
      have hn : '_' ∉ t := ht ▸ (splitU_no_us t p0 (h ▸ List.mem_cons_self _ _))
      rw [headRewrite_single t hn]
      show capSecond t = joinU (normParts [p0])
      unfold capSecond
      rw [h]
      show t = joinU [p0]
      rw [ht]
      rfl
    | cons p1 ps =>
      have h0 : '_' ∉ p0 := splitU_no_us t p0 (h ▸ List.mem_cons_self _ _)
      have h1 : '_' ∉ p1 :=
        splitU_no_us t p1 (h ▸ List.mem_cons.mpr (Or.inr (List.mem_cons_self _ _)))
      have hps : ∀ p ∈ ps, '_' ∉ p := fun p hp =>
        splitU_no_us t p (h ▸ List.mem_cons.mpr (Or.inr (List.mem_cons.mpr (Or.inr hp))))
    -- prefix step
      rw [← hjoin, headRewrite_parts p0 p1 ps h0]
    -- capitalisation step
      unfold capSecond
      have hsplit : splitU (joinU (fixHead p0 :: p1 :: ps)) = fixHead p0 :: p1 :: ps := by
        apply splitU_joinU _ (by simp)
        intro p hp
        rcases List.mem_cons.mp hp with hh | hh
        · exact hh ▸ fixHead_no_us p0 h0
        · rcases List.mem_cons.mp hh with hh2 | hh2
          · exact hh2 ▸ h1
          · exact hps p hh2
      rw [hsplit]
      rfl

/-- `normalizeLabel` in parts form: trim, split, fix the first two
segments, re-join (the empty-string guard included). -/
theorem normalizeLabel_eq (l : List Char) :
    normalizeLabel l = joinU (normParts (splitU (trimL l))) := by
  unfold normalizeLabel
  by_cases h : l = []
  · rw [if_pos h, h]
    rfl
  · rw [if_neg h]
    exact capSecond_headRewrite_eq (trimL l)

end StorageService

namespace StorageService

/-- The head surviving a `dropWhile` fails the dropped predicate. -/
theorem head?_dropWhile_not (p : Char → Bool) (l : List Char) :
    ∀ c, (l.dropWhile p).head? = some c → p c = false := by
  induction l with
  | nil => intro c h; simp at h
  | cons a rest ih =>
    intro c h
    rw [List.dropWhile_cons] at h
    by_cases ha : p a
    · exact ih c (by simpa [ha] using h)
    · rw [if_neg (by simpa using ha)] at h
      simp at h
      rw [← h]
      simpa using ha

/-- A trimmed string is a fixed point of `dropWhile isWS`. -/
theorem dropWhile_eq_self_of_head (l : List Char)
    (h : ∀ c, l.head? = some c → isWS c = false) : l.dropWhile isWS = l := by
  cases l with
  | nil => rfl
  | cons a rest =>
    rw [List.dropWhile_cons, if_neg (by simp [h a rfl])]

/-- `trimL` fixes strings that are already trimmed. -/
theorem trimL_of_trimmed (l : List Char) (h : Trimmed l) : trimL l = l := by
  unfold trimL
  rw [dropWhile_eq_self_of_head l h.1]
  rw [dropWhile_eq_self_of_head l.reverse
    (fun c hc => h.2 c (by rwa [List.head?_reverse] at hc))]
  exact List.reverse_reverse l

/-- `trimL` outputs trimmed strings. -/
theorem trimmed_trimL (l : List Char) : Trimmed (trimL l) := by
  unfold trimL
  constructor
  · intro c hc
    set m := l.dropWhile isWS with hm
    set r := m.reverse.dropWhile isWS with hr
    obtain ⟨tl, htl⟩ := List.dropWhile_suffix (l := m.reverse) isWS
    have hmrev : m = r.reverse ++ tl.reverse := by
      have := congrArg List.reverse htl
      simpa [List.reverse_append] using this.symm
    have hhead : m.head? = some c := by
      rw [hmrev, List.head?_append]
      cases hrr : r.reverse.head? with
      | none => rw [hrr] at hc; exact absurd hc (by simp)
      | some d =>
        rw [hrr] at hc
        simp at hc
        simpa [Option.or] using hc
    exact head?_dropWhile_not isWS l c hhead
  · intro c hc
    rw [List.getLast?_reverse] at hc
    exact head?_dropWhile_not isWS _ c hc

end StorageService

namespace StorageService

/-- `getLast?` of a cons as a right-biased choice. -/
theorem getLast?_cons_or (a : Char) (l : List Char) :
    (a :: l).getLast? = l.getLast?.or (some a) := by
  induction l generalizing a with
  | nil => simp [Option.or]
  | cons b r ih =>
    rw [List.getLast?_cons_cons, ih b]
    cases hr : r.getLast? <;> simp [Option.or]

/-- The last character of a joined part list with at least two parts does
not depend on the first part. -/
theorem getLast?_joinU_cons (p q : List Char) (qs : List (List Char)) :
    (joinU (p :: q :: qs)).getLast? = ((joinU (q :: qs)).getLast?).or (some '_') := by
  show (p ++ '_' :: joinU (q :: qs)).getLast? = _
  rw [List.getLast?_append, getLast?_cons_or]
  cases h : (joinU (q :: qs)).getLast? <;> cases hp : p.getLast? <;> simp [Option.or]

/-- The head of a joined part list with at least two parts is the head of
the first part, or the separator when that part is empty. -/
theorem head?_joinU_cons (p q : List Char) (qs : List (List Char)) :
    (joinU (p :: q :: qs)).head? = p.head?.or (some '_') := by
  show (p ++ '_' :: joinU (q :: qs)).head? = _
  rw [List.head?_append]
  rfl

/-- The last character of a capitalised segment has the whitespace status
of the last character of the original segment. -/
theorem cap_getLast?_isWS (p : List Char) :
    ∀ c, (cap p).getLast? = some c → ∃ d, p.getLast? = some d ∧ isWS c = isWS d := by
  cases p with
  | nil => intro c hc; simp [cap] at hc
  | cons a rest =>
    cases rest with
    | nil =>
      intro c hc
      rw [show cap [a] = [Char.toUpper a] from rfl, List.getLast?_singleton] at hc
      exact ⟨a, rfl, by rw [← Option.some_inj.mp hc, isWS_toUpper]⟩
    | cons b rs =>
      intro c hc
      simp only [cap, List.map_cons] at hc
      rw [List.getLast?_cons_cons] at hc
      rw [show (Char.toLower b :: List.map Char.toLower rs) =
        List.map Char.toLower (b :: rs) from rfl, List.getLast?_map] at hc
      cases hd : (b :: rs).getLast? with
      | none => rw [hd] at hc; simp at hc
      | some d =>
        rw [hd] at hc
        rw [show Option.map Char.toLower (some d) = some (Char.toLower d) from rfl] at hc
        refine ⟨d, by rw [List.getLast?_cons_cons, hd], ?_⟩
        rw [← Option.some_inj.mp hc, isWS_toLower]

/-- The normalisation of the split parts preserves trimmedness of the
joined string. -/
theorem trimmed_transfer (t : List Char) (ht : Trimmed t) :
    Trimmed (joinU (normParts (splitU t))) := by
  cases h : splitU t with
  | nil => exact absurd h (splitU_ne_nil t)
  | cons p0 ps0 =>
    have hjoin : joinU (p0 :: ps0) = t := by rw [← h]; exact joinU_splitU t
    cases ps0 with
    | nil =>
      show Trimmed (joinU [p0])
      have : joinU [p0] = t := hjoin
      rw [this]
      exact ht
    | cons p1 ps =>
      show Trimmed (joinU (fixHead p0 :: cap p1 :: ps))
      constructor
      · intro c hc
        rw [head?_joinU_cons] at hc
        have hht : t.head? = p0.head?.or (some '_') := by
          rw [← hjoin, head?_joinU_cons]
        unfold fixHead at hc
        by_cases hf1 : lcList p0 = "fresh".toList
        · rw [if_pos hf1] at hc
          have : c = 'F' := by simpa [Option.or] using hc.symm
          rw [this]; decide
        · rw [if_neg hf1] at hc
          by_cases hf2 : lcList p0 = "rotten".toList
          · rw [if_pos hf2] at hc
            have : c = 'R' := by simpa [Option.or] using hc.symm
            rw [this]; decide
          · rw [if_neg hf2] at hc
            exact ht.1 c (by rw [hht]; exact hc)
      · intro c hc
        cases ps with
        | nil =>
          rw [getLast?_joinU_cons] at hc
          have hht : t.getLast? = (p1.getLast?).or (some '_') := by
            rw [← hjoin, getLast?_joinU_cons]
            congr 1
          rw [show joinU [cap p1] = cap p1 from rfl] at hc
          cases hcap : (cap p1).getLast? with
          | none =>
            rw [hcap] at hc
            have hp1 : p1 = [] := by
              cases p1 with
              | nil => rfl
              | cons x xs => simp [cap] at hcap
            have : c = '_' := by simpa [Option.or] using hc.symm
            rw [this]; decide
          | some d =>
            rw [hcap] at hc
            have hcd : c = d := by simpa [Option.or] using hc.symm
            obtain ⟨e, he, hwe⟩ := cap_getLast?_isWS p1 d hcap
            have : t.getLast? = some e := by rw [hht, he]; rfl
            rw [hcd, hwe]
            exact ht.2 e this
        | cons q qs =>
          rw [getLast?_joinU_cons, getLast?_joinU_cons] at hc
          have hht : t.getLast? =
              (((joinU (q :: qs)).getLast?).or (some '_')).or (some '_') := by
            rw [← hjoin, getLast?_joinU_cons, getLast?_joinU_cons]
          exact ht.2 c (by rw [hht]; exact hc)

end StorageService

namespace StorageService

/-- List-level idempotence of the label normaliser. -/
theorem normalizeLabel_idem (l : List Char) :
    normalizeLabel (normalizeLabel l) = normalizeLabel l := by
  rw [normalizeLabel_eq l]
  by_cases hy : joinU (normParts (splitU (trimL l))) = []
  · rw [hy]
    rfl
  · rw [normalizeLabel_eq (joinU (normParts (splitU (trimL l))))]
    have hty : Trimmed (joinU (normParts (splitU (trimL l)))) :=
      trimmed_transfer (trimL l) (trimmed_trimL l)
    rw [trimL_of_trimmed _ hty]
    have hsp : splitU (joinU (normParts (splitU (trimL l)))) =
        normParts (splitU (trimL l)) := by
      apply splitU_joinU
      · exact normParts_ne_nil _ (splitU_ne_nil (trimL l))
      · exact normParts_no_us _ (splitU_no_us (trimL l))
    rw [hsp, normParts_idem]

end StorageService

open StorageService in
/-- C7: `normalizeLabel` is idempotent on every string:
`normalize(normalize(x)) = normalize(x)` (strings modelled characterwise
with ASCII case maps). -/
theorem C7_normalizeLabel_idempotent (s : String) :
    normalizeLabelS (normalizeLabelS s) = normalizeLabelS s := by
  unfold normalizeLabelS
  exact congrArg String.mk (normalizeLabel_idem s.data)

namespace ImageProcessor

/-- Membership in the suppression filter. -/
theorem sieve_mem (a : Det) (t : ℝ) (l : List Det) (x : Det) :
    x ∈ sieve a t l ↔ x ∈ l ∧ iou a x < t := by
  unfold sieve
  rw [List.mem_filter, decide_eq_true_eq]

/-- The NMS selection loop returns a sublist of its working set. -/
theorem nmsLoop_sublist (t : ℝ) : ∀ n (l : List Det), l.length ≤ n →
    (nmsLoop t l).Sublist l := by
  intro n
  induction n with
  | zero =>
    intro l hl
    rw [List.length_eq_zero.mp (Nat.le_zero.mp hl)]
    simp [nmsLoop]
  | succ n ih =>
    intro l hl
    cases l with
    | nil => simp [nmsLoop]
    | cons b rest =>
      rw [show nmsLoop t (b :: rest) = b :: nmsLoop t (sieve b t rest) from by
        rw [nmsLoop]]
      apply List.Sublist.cons₂
      have hlen : (sieve b t rest).length ≤ n :=
        le_trans (List.length_filter_le _ rest) (Nat.le_of_succ_le_succ hl)
      exact (ih (sieve b t rest) hlen).trans (List.filter_sublist rest)

/-- Every selected box was in the working set. -/
theorem nmsLoop_subset (t : ℝ) (l : List Det) : ∀ d ∈ nmsLoop t l, d ∈ l :=
  fun _ hd => (nmsLoop_sublist t l.length l le_rfl).subset hd

/-- Insertion preserves the multiset of boxes. -/
theorem insertDesc_perm (d : Det) (l : List Det) :
    (insertDesc d l).Perm (d :: l) := by
  induction l with
  | nil => exact List.Perm.refl _
  | cons b rest ih =>
    unfold insertDesc
    split
    · exact List.Perm.refl _
    · exact (List.Perm.cons b ih).trans (List.Perm.swap d b rest)

/-- Sorting preserves the multiset of boxes. -/
theorem sortDesc_perm (l : List Det) : (sortDesc l).Perm l := by
  induction l with
  | nil => exact List.Perm.refl _
  | cons b rest ih =>
    exact (insertDesc_perm b (sortDesc rest)).trans (List.Perm.cons b ih)

/-- Insertion into a descending list stays descending. -/
theorem insertDesc_sorted (d : Det) (l : List Det)
    (h : l.Pairwise (fun a b => b.confidence ≤ a.confidence)) :
    (insertDesc d l).Pairwise (fun a b => b.confidence ≤ a.confidence) := by
  induction l with
  | nil => simp [insertDesc]
  | cons b rest ih =>
    unfold insertDesc
    by_cases hb : b.confidence ≤ d.confidence
    · rw [if_pos hb]
      apply List.Pairwise.cons _ h
      intro x hx
      rcases List.mem_cons.mp hx with h1 | h1
      · exact h1 ▸ hb
      · exact le_trans (List.rel_of_pairwise_cons h h1) hb
    · rw [if_neg hb]
      apply List.Pairwise.cons
      · intro x hx
        rcases (insertDesc_perm d rest).mem_iff.mp hx with h1
        rcases List.mem_cons.mp h1 with h2 | h2
        · exact h2 ▸ le_of_not_le hb
        · exact List.rel_of_pairwise_cons h h2
      · exact ih (List.Pairwise.sublist (List.sublist_cons_self b rest) h)

/-- The JS sort leaves the detections in descending-confidence order. -/
theorem sortDesc_sorted (l : List Det) :
    (sortDesc l).Pairwise (fun a b => b.confidence ≤ a.confidence) := by
  induction l with
  | nil => simp [sortDesc]
  | cons b rest ih => exact insertDesc_sorted b (sortDesc rest) ih

/-- Any two boxes the NMS loop selects have IoU below the threshold (the
later one survived the earlier one's filter). -/
theorem nmsLoop_pairwise (t : ℝ) : ∀ n (l : List Det), l.length ≤ n →
    (nmsLoop t l).Pairwise (fun a b => iou a b < t) := by
  intro n
  induction n with
  | zero =>
    intro l hl
    rw [List.length_eq_zero.mp (Nat.le_zero.mp hl)]
    simp [nmsLoop]
  | succ n ih =>
    intro l hl
    cases l with
    | nil => simp [nmsLoop]
    | cons b rest =>
      rw [show nmsLoop t (b :: rest) = b :: nmsLoop t (sieve b t rest) from by
        rw [nmsLoop]]
      have hlen : (sieve b t rest).length ≤ n :=
        le_trans (List.length_filter_le _ rest) (Nat.le_of_succ_le_succ hl)
      apply List.Pairwise.cons
      · intro x hx
        exact ((sieve_mem b t rest x).mp (nmsLoop_subset t _ x hx)).2
      · exact ih (sieve b t rest) hlen

/-- Completeness of suppression: a working-set box missing from the
output was suppressed by some selected box at IoU at least the
threshold. -/
theorem nmsLoop_complete (t : ℝ) : ∀ n (l : List Det), l.length ≤ n →
    ∀ d ∈ l, d ∉ nmsLoop t l → ∃ s ∈ nmsLoop t l, t ≤ iou s d := by
  intro n
  induction n with
  | zero =>
    intro l hl d hd _
    rw [List.length_eq_zero.mp (Nat.le_zero.mp hl)] at hd
    simp at hd
  | succ n ih =>
    intro l hl d hd hout
    cases l with
    | nil => simp at hd
    | cons b rest =>
      rw [show nmsLoop t (b :: rest) = b :: nmsLoop t (sieve b t rest) from by
        rw [nmsLoop]] at hout ⊢
      have hdb : d ≠ b := fun hE => hout (hE ▸ List.mem_cons_self _ _)
      have hdr : d ∈ rest := by
        rcases List.mem_cons.mp hd with h1 | h1
        · exact absurd h1 hdb
        · exact h1
      by_cases hio : iou b d < t
      · have hins : d ∈ sieve b t rest := (sieve_mem b t rest d).mpr ⟨hdr, hio⟩
        have hlen : (sieve b t rest).length ≤ n :=
          le_trans (List.length_filter_le _ rest) (Nat.le_of_succ_le_succ hl)
        have hnotout : d ∉ nmsLoop t (sieve b t rest) :=
          fun hm => hout (List.mem_cons.mpr (Or.inr hm))
        obtain ⟨s, hs, hsi⟩ := ih (sieve b t rest) hlen d hins hnotout
        exact ⟨s, List.mem_cons.mpr (Or.inr hs), hsi⟩
      · exact ⟨b, List.mem_cons_self _ _, le_of_not_lt hio⟩

end ImageProcessor


open ImageProcessor in
/-- C2 (amended): NMS output is a subset of its input, in descending
confidence order; any two output boxes have IoU strictly below the
threshold (hence no pair exceeds it); and a detection is discarded exactly
when its IoU with some selected box is at least (`≥`, not strictly above)
the threshold — the code's filter keeps `iou < threshold`, so boxes at
exactly the threshold are discarded too. -/
theorem C2_nms_greedy_suppression (boxes : List Det) (t : ℝ) :
    (∀ d ∈ nonMaxSuppression boxes t, d ∈ boxes) ∧
    (nonMaxSuppression boxes t).Pairwise (fun a b => b.confidence ≤ a.confidence) ∧
    (nonMaxSuppression boxes t).Pairwise (fun a b => iou a b < t) ∧
    (∀ d ∈ boxes, d ∉ nonMaxSuppression boxes t →
      ∃ s ∈ nonMaxSuppression boxes t, t ≤ iou s d) := by
  refine ⟨?_, ?_, ?_, ?_⟩
  · intro d hd
    exact (sortDesc_perm boxes).mem_iff.mp
      (nmsLoop_subset t (sortDesc boxes) d hd)
  · exact List.Pairwise.sublist
      (nmsLoop_sublist t (sortDesc boxes).length (sortDesc boxes) le_rfl)
      (sortDesc_sorted boxes)
  · exact nmsLoop_pairwise t (sortDesc boxes).length (sortDesc boxes) le_rfl
  · intro d hd hout
    exact nmsLoop_complete t (sortDesc boxes).length (sortDesc boxes) le_rfl d
      ((sortDesc_perm boxes).mem_iff.mpr hd) hout

open ImageProcessor in
/-- C2 counterexample: at IoU exactly equal to the threshold the box is
discarded although its IoU does not exceed the threshold — refuting the
claimed "discarded iff IoU exceeds (`>`) the threshold" at a concrete
input: two unit boxes with IoU `1/3` and threshold `1/3`. -/
theorem C2_counterexample :
    iou bxA bxB = 1 / 3 ∧
    ¬(1 / 3 < iou bxA bxB) ∧
    nonMaxSuppression [bxA, bxB] (1 / 3) = [bxA] := by
  have hiou : iou bxA bxB = 1 / 3 := by
    simp only [iou, interArea, bxA, bxB]
    norm_num [max_def, min_def]
  refine ⟨hiou, by rw [hiou]; exact lt_irrefl _, ?_⟩
  have hsort : sortDesc [bxA, bxB] = [bxA, bxB] := by
    show insertDesc bxA (insertDesc bxB []) = _
    rw [show insertDesc bxB [] = [bxB] from rfl]
    show (if bxB.confidence ≤ bxA.confidence then bxA :: [bxB]
      else bxB :: insertDesc bxA []) = [bxA, bxB]
    rw [if_pos (by simp only [bxA, bxB]; norm_num)]
  have hsieve : sieve bxA (1 / 3) [bxB] = [] := by
    unfold sieve
    rw [List.filter_cons]
    rw [if_neg (by simp [hiou])]
    rfl
  unfold nonMaxSuppression
  rw [hsort, nmsLoop, hsieve, nmsLoop]

open ImageProcessor in
/-- C2 witness: the amended theorem applied at a concrete input — a
single box at threshold `1/2` survives NMS and is a member of the input. -/
theorem C2_witness :
    bxA ∈ nonMaxSuppression [bxA] (1 / 2) ∧ bxA ∈ [bxA] := by
  have hmem : bxA ∈ nonMaxSuppression [bxA] (1 / 2) := by
    unfold nonMaxSuppression sortDesc
    show bxA ∈ nmsLoop (1 / 2) (insertDesc bxA [])
    unfold insertDesc
    rw [nmsLoop, show sieve bxA (1 / 2) [] = [] from rfl, nmsLoop]
    exact List.mem_cons_self _ _
  exact ⟨hmem, (C2_nms_greedy_suppression [bxA] (1 / 2)).1 bxA hmem⟩

namespace ImageProcessor

/-- Intersection areas are never negative. -/
theorem interArea_nonneg (a b : Det) : 0 ≤ interArea a b := by
  unfold interArea
  exact mul_nonneg (le_max_left _ _) (le_max_left _ _)

/-- Zero or negative overlap extents give zero intersection. -/
theorem interArea_zero_of_nonpos (a b : Det)
    (h : min (a.x + a.width) (b.x + b.width) ≤ max a.x b.x ∨
      min (a.y + a.height) (b.y + b.height) ≤ max a.y b.y) :
    interArea a b = 0 := by
  show (max 0 (min (a.x + a.width) (b.x + b.width) - max a.x b.x)) *
    (max 0 (min (a.y + a.height) (b.y + b.height) - max a.y b.y)) = 0
  rcases h with h | h
  · rw [max_eq_left
      (by linarith : min (a.x + a.width) (b.x + b.width) - max a.x b.x ≤ 0), zero_mul]
  · rw [max_eq_left
      (by linarith : min (a.y + a.height) (b.y + b.height) - max a.y b.y ≤ 0), mul_zero]

/-- A zero-width or zero-height box has IoU `0` with every box, in both
argument orders (total real division: `0 / x = 0`, including `x = 0`). -/
theorem iou_zero_of_degenerate (a b : Det) (h : a.width = 0 ∨ a.height = 0) :
    iou a b = 0 ∧ iou b a = 0 := by
  have hab : interArea a b = 0 := by
    apply interArea_zero_of_nonpos
    rcases h with h | h
    · left
      calc min (a.x + a.width) (b.x + b.width) ≤ a.x + a.width := min_le_left _ _
        _ = a.x := by rw [h, add_zero]
        _ ≤ max a.x b.x := le_max_left _ _
    · right
      calc min (a.y + a.height) (b.y + b.height) ≤ a.y + a.height := min_le_left _ _
        _ = a.y := by rw [h, add_zero]
        _ ≤ max a.y b.y := le_max_left _ _
  have hba : interArea b a = 0 := by
    apply interArea_zero_of_nonpos
    rcases h with h | h
    · left
      calc min (b.x + b.width) (a.x + a.width) ≤ a.x + a.width := min_le_right _ _
        _ = a.x := by rw [h, add_zero]
        _ ≤ max b.x a.x := le_max_right _ _
    · right
      calc min (b.y + b.height) (a.y + a.height) ≤ a.y + a.height := min_le_right _ _
        _ = a.y := by rw [h, add_zero]
        _ ≤ max b.y a.y := le_max_right _ _
  constructor
  · unfold iou; rw [hab, zero_div]
  · unfold iou; rw [hba, zero_div]

/-- A degenerate box in the working set always survives the selection
loop when the threshold is positive. -/
theorem nmsLoop_keeps_degenerate (t : ℝ) (ht : 0 < t) :
    ∀ n (l : List Det), l.length ≤ n → ∀ d ∈ l,
      (d.width = 0 ∨ d.height = 0) → d ∈ nmsLoop t l := by
  intro n
  induction n with
  | zero =>
    intro l hl d hd _
    rw [List.length_eq_zero.mp (Nat.le_zero.mp hl)] at hd
    simp at hd
  | succ n ih =>
    intro l hl d hd hdeg
    cases l with
    | nil => simp at hd
    | cons b rest =>
      rw [show nmsLoop t (b :: rest) = b :: nmsLoop t (sieve b t rest) from by
        rw [nmsLoop]]
      rcases List.mem_cons.mp hd with h1 | h1
      · exact h1 ▸ List.mem_cons_self _ _
      · have hio : iou b d < t := by
          rw [(iou_zero_of_degenerate d b hdeg).2]
          exact ht
        have hlen : (sieve b t rest).length ≤ n :=
          le_trans (List.length_filter_le _ rest) (Nat.le_of_succ_le_succ hl)
        exact List.mem_cons.mpr (Or.inr (ih (sieve b t rest) hlen d
          ((sieve_mem b t rest d).mpr ⟨h1, hio⟩) hdeg))

end ImageProcessor

open ImageProcessor in
/-- C5 (amended): zero or negative overlap extents count as zero
intersection (and intersections are never negative); in the total-division
model a zero-width or zero-height box has IoU `0` with every box, so with
a positive NMS threshold it never suppresses any other detection and is
itself never suppressed — it always survives NMS (in JavaScript the `0/0`
denominator cases yield `NaN` instead; the claimed totality of the
division fails, see the counterexample). -/
theorem C5_degenerate_boxes (a b : Det) (boxes : List Det) (t : ℝ)
    (ht : 0 < t) (hdeg : a.width = 0 ∨ a.height = 0) :
    (0 ≤ interArea a b) ∧
    ((min (a.x + a.width) (b.x + b.width) ≤ max a.x b.x ∨
      min (a.y + a.height) (b.y + b.height) ≤ max a.y b.y) →
      interArea a b = 0) ∧
    iou a b = 0 ∧ iou b a = 0 ∧
    (a ∈ boxes → a ∈ nonMaxSuppression boxes t) := by
  obtain ⟨h1, h2⟩ := iou_zero_of_degenerate a b hdeg
  refine ⟨interArea_nonneg a b, interArea_zero_of_nonpos a b, h1, h2, ?_⟩
  intro hmem
  exact nmsLoop_keeps_degenerate t ht (sortDesc boxes).length (sortDesc boxes)
    le_rfl a ((sortDesc_perm boxes).mem_iff.mpr hmem) hdeg

namespace ImageProcessor

/-- Softmax of a single score is the single probability `1`, whatever the
score. -/
theorem softmax_single (s : ℝ) : softmax [s] = [1] := by
  unfold softmax maxList
  show List.map (fun e => e / List.sum (List.map (fun v => Real.exp (v - s)) [s]))
    (List.map (fun v => Real.exp (v - s)) [s]) = [1]
  simp [Real.exp_zero]

/-- The logistic sigmoid at objectness `0`. -/
theorem sigmoid_zero : sigmoid 0 = 1 / 2 := by
  unfold sigmoid
  rw [neg_zero, Real.exp_zero]
  norm_num

/-- A 6-attribute row with objectness `0` always decodes, at threshold
`1/2`, to a detection carrying its box, confidence exactly `1/2`, class 0
and the first class name. -/
theorem decodeRow_six (data : ℕ → ℝ) (offset : ℕ) (hconf : data (offset + 4) = 0) :
    decodeRow 6 data (1 / 2) offset =
      some ⟨data offset, data (offset + 1), data (offset + 2), data (offset + 3),
        1 / 2, 0, "Fresh_Apple"⟩ := by
  have hcs : classScoresOf 6 data offset = [data (offset + 5)] := by
    unfold classScoresOf
    rw [show (6 : ℕ) - 5 = 1 from rfl,
      show min 1 CLASS_NAMES.length = 1 from by decide,
      show List.range 1 = [0] from rfl]
    simp
  unfold decodeRow
  rw [hcs, softmax_single, hconf, sigmoid_zero,
    show bestScan [(1:ℝ)] = (0, 1) from rfl]
  rw [if_neg (by simp)]
  have hclamp : max 0 (min 1 ((1:ℝ) / 2 * (0, (1:ℝ)).2)) = 1 / 2 := by
    norm_num
  rw [hclamp, if_pos le_rfl]
  rfl

/-- NMS of a single detection returns it unchanged. -/
theorem nms_single (d : Det) (t : ℝ) : nonMaxSuppression [d] t = [d] := by
  unfold nonMaxSuppression
  show nmsLoop t (insertDesc d []) = [d]
  rw [show insertDesc d [] = [d] from rfl, nmsLoop,
    show sieve d t [] = [] from rfl, nmsLoop]

/-- The decode loop of `zeroWidthData`: two zero-width detections reach
NMS. -/
theorem decodeAll_zeroWidth :
    decodeAll 2 6 zeroWidthData (1 / 2) = [zDet1, zDet2] := by
  unfold decodeAll
  rw [show List.range 2 = [0, 1] from rfl]
  rw [List.filterMap_cons, List.filterMap_cons, List.filterMap_nil]
  rw [show (0 : ℕ) * 6 = 0 from rfl, show (1 : ℕ) * 6 = 6 from rfl]
  rw [decodeRow_six zeroWidthData 0 (by norm_num [zeroWidthData, dataOf]),
    decodeRow_six zeroWidthData 6 (by norm_num [zeroWidthData, dataOf])]
  unfold zDet1 zDet2
  norm_num [zeroWidthData, dataOf]

end ImageProcessor

open ImageProcessor in
/-- C5 counterexample: the claim that the IoU computation never divides by
zero on the detections reaching NMS is false — `zeroWidthData` decodes (at
confidence threshold `1/2`) to two zero-width detections, and the IoU
denominator `areaA + areaB - interArea` for that pair is exactly `0` (in
JavaScript `0/0` is `NaN`, a non-numeric result). -/
theorem C5_counterexample :
    decodeAll 2 6 zeroWidthData (1 / 2) = [zDet1, zDet2] ∧
    zDet1.width * zDet1.height + zDet2.width * zDet2.height -
      interArea zDet1 zDet2 = 0 := by
  refine ⟨decodeAll_zeroWidth, ?_⟩
  have hz : interArea zDet1 zDet2 = 0 := by
    apply interArea_zero_of_nonpos
    left
    norm_num [zDet1, zDet2]
  rw [hz]
  norm_num [zDet1, zDet2]

open ImageProcessor in
/-- C5 witness: the amended theorem applied at a concrete input — the
zero-width box `zw` has IoU `0` with `bxA` in both orders and survives
NMS at threshold `2/5`. -/
theorem C5_witness :
    iou zw bxA = 0 ∧ iou bxA zw = 0 ∧ zw ∈ nonMaxSuppression [zw] (2 / 5) :=
  have h := C5_degenerate_boxes zw bxA [zw] (2 / 5) (by norm_num) (Or.inl rfl)
  ⟨h.2.2.1, h.2.2.2.1, h.2.2.2.2 (List.mem_cons_self _ _)⟩

namespace ImageProcessor

/-- Every decoded detection stores the clamped final confidence. -/
theorem decodeRow_conf_clamped (nA : ℕ) (data : ℕ → ℝ) (ct : ℝ) (offset : ℕ)
    (d : Det) (h : decodeRow nA data ct offset = some d) :
    d.confidence = max 0 (min 1 (sigmoid (data (offset + 4)) *
      (bestScan (softmax (classScoresOf nA data offset))).2)) := by
  unfold decodeRow at h
  split at h
  · exact absurd h (by simp)
  · split at h
    · rw [← Option.some_inj.mp h]
    · exact absurd h (by simp)

/-- The single-row pipeline evaluates to the single decoded detection. -/
theorem postprocess_single :
    postprocess 1 6 singleRowData (1 / 2) (2 / 5) = [sDet] := by
  unfold postprocess decodeAll
  rw [show List.range 1 = [0] from rfl, List.filterMap_cons, List.filterMap_nil,
    show (0 : ℕ) * 6 = 0 from rfl,
    decodeRow_six singleRowData 0 (by norm_num [singleRowData, dataOf])]
  rw [show (⟨singleRowData 0, singleRowData 1, singleRowData 2, singleRowData 3,
      1 / 2, 0, "Fresh_Apple"⟩ : Det) = sDet from by
    unfold sDet; norm_num [singleRowData, dataOf]]
  exact nms_single sDet (2 / 5)

end ImageProcessor

open ImageProcessor in
/-- C4: every detection produced by the full postprocessing pipeline (row
decode followed by NMS) carries a confidence in the closed interval
`[0, 1]` — the decode clamps `sigmoid(objectness) * bestClassProb` into
`[0, 1]` and NMS only selects a subset. -/
theorem C4_confidence_in_unit_interval
    (numPredictions numAttributes : ℕ) (data : ℕ → ℝ) (confThr nmsThr : ℝ) :
    ∀ d ∈ postprocess numPredictions numAttributes data confThr nmsThr,
      0 ≤ d.confidence ∧ d.confidence ≤ 1 := by
  intro d hd
  have hdec : d ∈ decodeAll numPredictions numAttributes data confThr := by
    unfold postprocess nonMaxSuppression at hd
    exact (sortDesc_perm _).mem_iff.mp (nmsLoop_subset nmsThr _ d hd)
  obtain ⟨i, _, hrow⟩ := List.mem_filterMap.mp hdec
  rw [decodeRow_conf_clamped _ _ _ _ _ hrow]
  constructor
  · exact le_max_left _ _
  · exact max_le (by norm_num) (min_le_left _ _)

open ImageProcessor in
/-- C4 witness: the theorem applied to the concrete single-row pipeline
whose sole detection has confidence exactly `1/2`. -/
theorem C4_witness :
    sDet ∈ postprocess 1 6 singleRowData (1 / 2) (2 / 5) ∧
    0 ≤ sDet.confidence ∧ sDet.confidence ≤ 1 :=
  have hmem : sDet ∈ postprocess 1 6 singleRowData (1 / 2) (2 / 5) := by
    rw [postprocess_single]; exact List.mem_cons_self _ _
  ⟨hmem, C4_confidence_in_unit_interval 1 6 singleRowData (1 / 2) (2 / 5) sDet hmem⟩

namespace ImageProcessor

/-- The numerically-stable softmax (row max subtracted before
exponentiating) computes exactly the plain softmax probabilities. -/
theorem softmax_eq_spec (l : List ℝ) : softmax l = softmaxSpec l := by
  unfold softmax softmaxSpec
  rw [List.map_map]
  apply List.map_congr_left
  intro v _
  show Real.exp (v - maxList l) /
    (List.map (fun w => Real.exp (w - maxList l)) l).sum = _
  have hrw : (List.map (fun w => Real.exp (w - maxList l)) l) =
      List.map (fun w => Real.exp w * Real.exp (-(maxList l))) l := by
    apply List.map_congr_left
    intro w _
    rw [sub_eq_add_neg, Real.exp_add]
  rw [hrw, show (fun w => Real.exp w * Real.exp (-(maxList l))) =
      (fun w => (fun x => Real.exp x) w * Real.exp (-(maxList l))) from rfl,
    List.sum_map_mul_right, sub_eq_add_neg, Real.exp_add]
  exact mul_div_mul_right _ _ (Real.exp_ne_zero _)

/-- The best-probability accumulator is a running maximum. -/
theorem bestScanGo_snd (qs : List ℝ) : ∀ (k bi : ℕ) (bv : ℝ),
    (bestScanGo qs k bi bv).2 = qs.foldl max bv := by
  induction qs with
  | nil => intro k bi bv; rfl
  | cons q qs ih =>
    intro k bi bv
    show (if bv < q then bestScanGo qs (k + 1) k q
      else bestScanGo qs (k + 1) bi bv).2 = qs.foldl max (max bv q)
    by_cases h : bv < q
    · rw [if_pos h, ih, max_eq_right (le_of_lt h)]
    · rw [if_neg h, ih, max_eq_left (le_of_not_lt h)]

/-- The scan's best class probability is the maximum probability. -/
theorem bestScan_snd (l : List ℝ) : (bestScan l).2 = maxList l := by
  cases l with
  | nil => rfl
  | cons p rest => exact bestScanGo_snd rest 1 0 p

end ImageProcessor

open ImageProcessor in
/-- C1: in probabilistic mode, for every row with at least one usable
class-score entry the decoder computes the plain softmax class
probabilities (the implemented max-subtracted softmax equals it), applies
the logistic sigmoid to the objectness, clamps
`sigmoid(objectness) * bestClassProbability` into `[0, 1]`, stores that as
the confidence and keeps the row iff it reaches the confidence threshold
(non-strict); for class scores `[2, 1, 0.1]` with objectness `0` the best
class is index 0 and the final confidence is `sigmoid(0) = 1/2` times the
top class probability. -/
theorem C1_probabilistic_scoring
    (numAttributes : ℕ) (data : ℕ → ℝ) (confThr : ℝ) (offset : ℕ)
    (hne : (classScoresOf numAttributes data offset).length ≠ 0) :
    (∀ l : List ℝ, softmax l = softmaxSpec l) ∧
    ((decodeRow numAttributes data confThr offset).isSome ↔
      confThr ≤ max 0 (min 1 (sigmoid (data (offset + 4)) *
        maxList (softmaxSpec (classScoresOf numAttributes data offset))))) ∧
    (∀ d : Det, decodeRow numAttributes data confThr offset = some d →
      d.confidence = max 0 (min 1 (sigmoid (data (offset + 4)) *
        maxList (softmaxSpec (classScoresOf numAttributes data offset))))) ∧
    (bestScan (softmax [2, 1, 0.1])).1 = 0 ∧
    sigmoid 0 = 1 / 2 ∧
    max 0 (min 1 (sigmoid 0 * (bestScan (softmax [2, 1, 0.1])).2)) =
      1 / 2 * ((softmax [2, 1, 0.1]).headD 0) := by
  have hclamp : ∀ x : ℝ, max 0 (min 1 (sigmoid (data (offset + 4)) *
      (bestScan (softmax (classScoresOf numAttributes data offset))).2)) =
      max 0 (min 1 (sigmoid (data (offset + 4)) *
        maxList (softmaxSpec (classScoresOf numAttributes data offset)))) := by
    intro _
    rw [bestScan_snd, softmax_eq_spec]
  refine ⟨fun l => softmax_eq_spec l, ?_, ?_, ?_, sigmoid_zero, ?_⟩
  · unfold decodeRow
    rw [if_neg hne]
    by_cases h : confThr ≤ max 0 (min 1 (sigmoid (data (offset + 4)) *
        (bestScan (softmax (classScoresOf numAttributes data offset))).2))
    · rw [if_pos h]
      simp only [Option.isSome_some, true_iff]
      rw [← hclamp 0]
      exact h
    · rw [if_neg h]
      simp only [Option.isSome_none, Bool.false_eq_true, false_iff]
      rw [← hclamp 0]
      exact h
  · intro d hd
    rw [decodeRow_conf_clamped _ _ _ _ _ hd, hclamp 0]
  · rw [softmax_eq_spec]
    have hS : (0:ℝ) < (List.map Real.exp [(2:ℝ), 1, 0.1]).sum := by
      show (0:ℝ) < Real.exp 2 + (Real.exp 1 + (Real.exp 0.1 + 0))
      positivity
    have h01 : Real.exp 1 / (List.map Real.exp [(2:ℝ), 1, 0.1]).sum <
        Real.exp 2 / (List.map Real.exp [(2:ℝ), 1, 0.1]).sum := by
      have hlt : Real.exp (1:ℝ) < Real.exp 2 := Real.exp_lt_exp.mpr (by norm_num)
      gcongr
    have h02 : Real.exp 0.1 / (List.map Real.exp [(2:ℝ), 1, 0.1]).sum <
        Real.exp 2 / (List.map Real.exp [(2:ℝ), 1, 0.1]).sum := by
      have hlt : Real.exp (0.1:ℝ) < Real.exp 2 := Real.exp_lt_exp.mpr (by norm_num)
      gcongr
    show (bestScanGo [Real.exp 1 / (List.map Real.exp [(2:ℝ), 1, 0.1]).sum,
      Real.exp 0.1 / (List.map Real.exp [(2:ℝ), 1, 0.1]).sum] 1 0
      (Real.exp 2 / (List.map Real.exp [(2:ℝ), 1, 0.1]).sum)).1 = 0
    rw [show ∀ q qs k bi (bv : ℝ), bestScanGo (q :: qs) k bi bv =
        if bv < q then bestScanGo qs (k + 1) k q else bestScanGo qs (k + 1) bi bv
      from fun _ _ _ _ _ => rfl]
    rw [if_neg (not_lt.mpr (le_of_lt h01))]
    rw [show ∀ q qs k bi (bv : ℝ), bestScanGo (q :: qs) k bi bv =
        if bv < q then bestScanGo qs (k + 1) k q else bestScanGo qs (k + 1) bi bv
      from fun _ _ _ _ _ => rfl]
    rw [if_neg (not_lt.mpr (le_of_lt h02))]
    rfl
  · rw [sigmoid_zero, bestScan_snd, softmax_eq_spec]
    have hS : (0:ℝ) < (List.map Real.exp [(2:ℝ), 1, 0.1]).sum := by
      show (0:ℝ) < Real.exp 2 + (Real.exp 1 + (Real.exp 0.1 + 0))
      positivity
    have h01 : Real.exp 1 / (List.map Real.exp [(2:ℝ), 1, 0.1]).sum ≤
        Real.exp 2 / (List.map Real.exp [(2:ℝ), 1, 0.1]).sum := by
      have hle : Real.exp (1:ℝ) ≤ Real.exp 2 := Real.exp_le_exp.mpr (by norm_num)
      gcongr
    have h02 : Real.exp 0.1 / (List.map Real.exp [(2:ℝ), 1, 0.1]).sum ≤
        Real.exp 2 / (List.map Real.exp [(2:ℝ), 1, 0.1]).sum := by
      have hle : Real.exp (0.1:ℝ) ≤ Real.exp 2 := Real.exp_le_exp.mpr (by norm_num)
      gcongr
    have hmax : maxList (softmaxSpec [(2:ℝ), 1, 0.1]) =
        Real.exp 2 / (List.map Real.exp [(2:ℝ), 1, 0.1]).sum := by
      show ([Real.exp 1 / (List.map Real.exp [(2:ℝ), 1, 0.1]).sum,
        Real.exp 0.1 / (List.map Real.exp [(2:ℝ), 1, 0.1]).sum].foldl max
        (Real.exp 2 / (List.map Real.exp [(2:ℝ), 1, 0.1]).sum)) = _
      rw [List.foldl_cons, List.foldl_cons, List.foldl_nil]
      rw [max_eq_left h01, max_eq_left h02]
    rw [hmax]
    have hle1 : Real.exp 2 / (List.map Real.exp [(2:ℝ), 1, 0.1]).sum ≤ 1 := by
      rw [div_le_one hS]
      have h1 := Real.exp_pos (1:ℝ)
      have h2 := Real.exp_pos (0.1:ℝ)
      show Real.exp 2 ≤ Real.exp 2 + (Real.exp 1 + (Real.exp 0.1 + 0))
      linarith
    have hge0 : (0:ℝ) ≤ Real.exp 2 / (List.map Real.exp [(2:ℝ), 1, 0.1]).sum := by
      positivity
    rw [show (softmaxSpec [(2:ℝ), 1, 0.1]).headD 0 =
      Real.exp 2 / (List.map Real.exp [(2:ℝ), 1, 0.1]).sum from rfl]
    rw [min_eq_right (by linarith), max_eq_right (by linarith)]

open ImageProcessor in
/-- C1 witness: the keep-iff characterisation applied at a concrete
6-attribute row (one usable class score) with confidence threshold `0`. -/
theorem C1_witness :
    (classScoresOf 6 singleRowData 0).length ≠ 0 ∧
    ((decodeRow 6 singleRowData 0 0).isSome ↔
      (0:ℝ) ≤ max 0 (min 1 (sigmoid (singleRowData 4) *
        maxList (softmaxSpec (classScoresOf 6 singleRowData 0))))) := by
  have hne : (classScoresOf 6 singleRowData 0).length ≠ 0 := by
    unfold classScoresOf
    simp
    decide
  exact ⟨hne, (C1_probabilistic_scoring 6 singleRowData 0 0 hne).2.1⟩

namespace Part001

/-- Folding `max` never drops below its seed. -/
theorem le_foldl_max (l : List ℝ) : ∀ bv : ℝ, bv ≤ l.foldl max bv := by
  induction l with
  | nil => intro bv; exact le_rfl
  | cons x xs ih =>
    intro bv
    exact le_trans (le_max_left bv x) (ih (max bv x))

/-- Every element is bounded by the fold of `max`. -/
theorem mem_le_foldl_max (l : List ℝ) : ∀ (bv : ℝ) (x : ℝ), x ∈ l →
    x ≤ l.foldl max bv := by
  induction l with
  | nil => intro bv x hx; simp at hx
  | cons y ys ih =>
    intro bv x hx
    rcases List.mem_cons.mp hx with h | h
    · exact h ▸ le_trans (le_max_right bv x) (le_foldl_max ys (max bv x))
    · exact ih (max bv y) x h

/-- The part_001 scan accumulator is a running maximum. -/
theorem scanRaw_snd (scores : List ℝ) : ∀ (j : ℕ) (b : ℤ) (bv : ℝ),
    (scanRaw scores j b bv).2 = scores.foldl max bv := by
  induction scores with
  | nil => intro j b bv; rfl
  | cons s rest ih =>
    intro j b bv
    show (if bv < s then scanRaw rest (j + 1) (Int.ofNat j) s
      else scanRaw rest (j + 1) b bv).2 = rest.foldl max (max bv s)
    by_cases h : bv < s
    · rw [if_pos h, ih, max_eq_right (le_of_lt h)]
    · rw [if_neg h, ih, max_eq_left (le_of_not_lt h)]

/-- When no score beats the accumulator, the scan returns it unchanged. -/
theorem scanRaw_of_all_le (scores : List ℝ) : ∀ (j : ℕ) (b : ℤ) (bv : ℝ),
    (∀ s ∈ scores, s ≤ bv) → scanRaw scores j b bv = (b, bv) := by
  induction scores with
  | nil => intro j b bv _; rfl
  | cons s rest ih =>
    intro j b bv h
    show (if bv < s then scanRaw rest (j + 1) (Int.ofNat j) s
      else scanRaw rest (j + 1) b bv) = (b, bv)
    rw [if_neg (not_lt.mpr (h s (List.mem_cons_self _ _)))]
    exact ih (j + 1) b bv (fun x hx => h x (List.mem_cons.mpr (Or.inr hx)))

/-- When some score beats the accumulator, the scan lands on the first
index attaining the running maximum: the reported best class attains the
final best score and every earlier score is strictly below it. -/
theorem scanRaw_argmax (scores : List ℝ) : ∀ (j : ℕ) (b : ℤ) (bv : ℝ),
    (∃ s ∈ scores, bv < s) →
    ∃ k, k < scores.length ∧ (scanRaw scores j b bv).1 = Int.ofNat (j + k) ∧
      scores.getD k 0 = (scanRaw scores j b bv).2 ∧
      ∀ i < k, scores.getD i 0 < (scanRaw scores j b bv).2 := by
  induction scores with
  | nil => intro j b bv h; simp at h
  | cons s rest ih =>
    intro j b bv hex
    have hunf : scanRaw (s :: rest) j b bv =
        if bv < s then scanRaw rest (j + 1) (Int.ofNat j) s
        else scanRaw rest (j + 1) b bv := rfl
    by_cases hbs : bv < s
    · rw [hunf, if_pos hbs]
      by_cases hre : ∃ r ∈ rest, s < r
      · obtain ⟨k', hk', hidx, hval, hlt⟩ := ih (j + 1) (Int.ofNat j) s hre
        refine ⟨k' + 1, by simpa using Nat.succ_lt_succ hk', ?_, ?_, ?_⟩
        · rw [hidx]; congr 1; omega
        · exact hval
        · intro i hi
          cases i with
          | zero =>
            obtain ⟨r, hr, hsr⟩ := hre
            have hrM : r ≤ (scanRaw rest (j + 1) (Int.ofNat j) s).2 := by
              rw [scanRaw_snd]
              exact mem_le_foldl_max rest s r hr
            show s < _
            exact lt_of_lt_of_le hsr hrM
          | succ i' =>
            exact hlt i' (by omega)
      · push_neg at hre
        rw [scanRaw_of_all_le rest (j + 1) (Int.ofNat j) s hre]
        exact ⟨0, by simp, by simp, rfl, by omega⟩
    · rw [hunf, if_neg hbs]
      have hre : ∃ r ∈ rest, bv < r := by
        obtain ⟨r, hr, hbr⟩ := hex
        rcases List.mem_cons.mp hr with h1 | h1
        · exact absurd (h1 ▸ hbr) hbs
        · exact ⟨r, h1, hbr⟩
      obtain ⟨k', hk', hidx, hval, hlt⟩ := ih (j + 1) b bv hre
      refine ⟨k' + 1, by simpa using Nat.succ_lt_succ hk', ?_, ?_, ?_⟩
      · rw [hidx]; congr 1; omega
      · exact hval
      · intro i hi
        cases i with
        | zero =>
          obtain ⟨r, hr, hbr⟩ := hre
          have hrM : r ≤ (scanRaw rest (j + 1) b bv).2 := by
            rw [scanRaw_snd]
            exact mem_le_foldl_max rest bv r hr
          show s < _
          exact lt_of_le_of_lt (le_of_not_lt hbs) (lt_of_lt_of_le hbr hrM)
        | succ i' =>
          exact hlt i' (by omega)

/-- All scores non-positive leave the `-1` sentinel and best score `0`. -/
theorem scan001_of_all_nonpos (scores : List ℝ)
    (h : ∀ s ∈ scores, s ≤ 0) : scan001 scores = (-1, 0) :=
  scanRaw_of_all_le scores 0 (-1) 0 h

end Part001

open Part001 in
open Part003 in
/-- C3 (amended): in the raw-threshold decoders, the part_001 `postprocess`
computes final confidence `objectness * bestScore` where `bestScore` is
the running maximum of `0` and the raw class scores, keeps a row only when
that product STRICTLY exceeds the threshold (`score > threshold`, not
`>=`), and — whenever some raw class score is positive — its best class is
the first argmax of the raw class scores; the part_003 variant instead
pre-filters on the raw objectness scalar alone (non-strict `>=`) and
stores that scalar as the confidence, never the product. -/
theorem C3_raw_threshold_scoring
    (outputData : List ℝ) (threshold : ℝ) (i : ℕ)
    (numAttributes : ℕ) (data : ℕ → ℝ) (confThr : ℝ) (offset : ℕ)
    (hpos : 0 < (scan001 (scoresOf outputData (i * (5 + CLASS_NAMES.length)))).2) :
    ((rowDecode001 outputData threshold i).isSome ↔
      threshold < outputData.getD (i * (5 + CLASS_NAMES.length) + 4) 0 *
        (scan001 (scoresOf outputData (i * (5 + CLASS_NAMES.length)))).2) ∧
    (∀ det : Part001.Det, rowDecode001 outputData threshold i = some det →
      det.confidence = outputData.getD (i * (5 + CLASS_NAMES.length) + 4) 0 *
        (scan001 (scoresOf outputData (i * (5 + CLASS_NAMES.length)))).2) ∧
    ((scan001 (scoresOf outputData (i * (5 + CLASS_NAMES.length)))).2 =
      (scoresOf outputData (i * (5 + CLASS_NAMES.length))).foldl max 0) ∧
    (∃ k, k < (scoresOf outputData (i * (5 + CLASS_NAMES.length))).length ∧
      (scan001 (scoresOf outputData (i * (5 + CLASS_NAMES.length)))).1 = Int.ofNat k ∧
      (scoresOf outputData (i * (5 + CLASS_NAMES.length))).getD k 0 =
        (scan001 (scoresOf outputData (i * (5 + CLASS_NAMES.length)))).2 ∧
      ∀ j < k, (scoresOf outputData (i * (5 + CLASS_NAMES.length))).getD j 0 <
        (scan001 (scoresOf outputData (i * (5 + CLASS_NAMES.length)))).2) ∧
    ((Part003.decodeRow numAttributes data confThr offset).isSome ↔
      confThr ≤ data (offset + 4)) ∧
    (∀ det : Part003.Det, Part003.decodeRow numAttributes data confThr offset = some det →
      det.confidence = data (offset + 4)) := by
  refine ⟨?_, ?_, scanRaw_snd _ 0 (-1) 0, ?_, ?_, ?_⟩
  · unfold rowDecode001
    by_cases h : threshold < outputData.getD (i * (5 + CLASS_NAMES.length) + 4) 0 *
        (scan001 (scoresOf outputData (i * (5 + CLASS_NAMES.length)))).2
    · rw [if_pos h]; simpa using h
    · rw [if_neg h]; simpa using h
  · intro det hdet
    unfold rowDecode001 at hdet
    split at hdet
    · rw [← Option.some_inj.mp hdet]
    · exact absurd hdet (by simp)
  · have hex : ∃ s ∈ scoresOf outputData (i * (5 + CLASS_NAMES.length)), (0:ℝ) < s := by
      by_contra hall
      push_neg at hall
      rw [show scan001 (scoresOf outputData (i * (5 + CLASS_NAMES.length))) =
        ((-1 : ℤ), (0:ℝ)) from scan001_of_all_nonpos _ hall] at hpos
      exact lt_irrefl 0 hpos
    obtain ⟨k, hk, hidx, hval, hlt⟩ := scanRaw_argmax _ 0 (-1) 0 hex
    exact ⟨k, hk, by simpa using hidx, hval, hlt⟩
  · unfold Part003.decodeRow
    by_cases h : confThr ≤ data (offset + 4)
    · rw [if_pos h]; simpa using h
    · rw [if_neg h]; simpa using h
  · intro det hdet
    unfold Part003.decodeRow at hdet
    split at hdet
    · rw [← Option.some_inj.mp hdet]
    · exact absurd hdet (by simp)

namespace Part001

/-- The class-score slice of the boundary row: one positive score then
zeros. -/
theorem scoresOf_boundaryRow :
    scoresOf boundaryRow 0 = (1 / 2 : ℝ) :: List.replicate 25 0 := rfl

/-- The boundary row's scan lands on class `0` with best score `1/2`. -/
theorem scan001_boundaryRow :
    scan001 (scoresOf boundaryRow 0) = (0, 1 / 2) := by
  rw [scoresOf_boundaryRow]
  unfold scan001
  show (if (0:ℝ) < 1 / 2 then scanRaw (List.replicate 25 0) 1 (Int.ofNat 0) (1 / 2)
    else scanRaw (List.replicate 25 0) 1 (-1) 0) = (0, 1 / 2)
  rw [if_pos (by norm_num)]
  rw [scanRaw_of_all_le _ 1 (Int.ofNat 0) (1 / 2) (fun s hs => by
    rw [List.eq_of_mem_replicate hs]; norm_num)]
  rfl

/-- The boundary row decodes to nothing at threshold `1/4` although its
product is exactly `1/4`. -/
theorem rowDecode001_boundaryRow : rowDecode001 boundaryRow (1 / 4) 0 = none := by
  unfold rowDecode001
  rw [show (0 : ℕ) * (5 + CLASS_NAMES.length) = 0 from rfl]
  rw [scan001_boundaryRow]
  rw [if_neg (by
    rw [show boundaryRow.getD (0 + 4) 0 = (1 / 2 : ℝ) from rfl]
    norm_num)]

end Part001

open Part001 in
/-- C3 counterexample: a part_001 row whose final confidence
`objectness * bestScore` equals the confidence threshold exactly
(`1/2 * 1/2 = 1/4`) is dropped — `postprocess` returns no detections —
refuting the claimed non-strict `finalConfidence >= confidenceThreshold`
keep rule: the code keeps only on the strict `score > threshold`. -/
theorem C3_counterexample :
    boundaryRow.getD 4 0 * (scan001 (scoresOf boundaryRow 0)).2 = 1 / 4 ∧
    Part001.postprocess boundaryRow (1 / 4) = [] := by
  constructor
  · rw [scan001_boundaryRow, show boundaryRow.getD 4 0 = (1 / 2 : ℝ) from rfl]
    norm_num
  · unfold Part001.postprocess
    rw [show boundaryRow.length / (5 + CLASS_NAMES.length) = 1 by
      rw [show boundaryRow.length = 31 by
        unfold boundaryRow
        rw [List.length_append, List.length_replicate]
        rfl]
      decide]
    rw [show List.range 1 = [0] from rfl, List.filterMap_cons, List.filterMap_nil,
      rowDecode001_boundaryRow]

open Part001 in
/-- C3 witness: the amended theorem applied at the concrete boundary row —
the keep test is the strict comparison against the product, which fails at
equality. -/
theorem C3_witness :
    (0 : ℝ) < (scan001 (scoresOf boundaryRow (0 * (5 + CLASS_NAMES.length)))).2 ∧
    ((rowDecode001 boundaryRow (1 / 4) 0).isSome ↔
      (1 / 4 : ℝ) < boundaryRow.getD (0 * (5 + CLASS_NAMES.length) + 4) 0 *
        (scan001 (scoresOf boundaryRow (0 * (5 + CLASS_NAMES.length)))).2) := by
  have hpos : (0 : ℝ) < (scan001 (scoresOf boundaryRow (0 * (5 + CLASS_NAMES.length)))).2 := by
    rw [show (0 : ℕ) * (5 + CLASS_NAMES.length) = 0 from rfl, scan001_boundaryRow]
    norm_num
  exact ⟨hpos, (C3_raw_threshold_scoring boundaryRow (1 / 4) 0 31
    (fun _ => 0) 0 0 hpos).1⟩

namespace ImageProcessor

/-- The best-class index of the scan stays below the number of entries
processed. -/
theorem bestScanGo_fst (qs : List ℝ) : ∀ (k bi : ℕ) (bv : ℝ), bi < k →
    (bestScanGo qs k bi bv).1 < k + qs.length := by
  induction qs with
  | nil =>
    intro k bi bv h
    simpa using h
  | cons q qs ih =>
    intro k bi bv h
    show (if bv < q then bestScanGo qs (k + 1) k q
      else bestScanGo qs (k + 1) bi bv).1 < k + (qs.length + 1)
    by_cases hq : bv < q
    · rw [if_pos hq]
      have := ih (k + 1) k q (Nat.lt_succ_self k)
      omega
    · rw [if_neg hq]
      have := ih (k + 1) bi bv (Nat.lt_succ_of_lt h)
      omega

/-- The best class of a non-empty probability row is a valid index. -/
theorem bestScan_fst_lt (probs : List ℝ) (h : probs ≠ []) :
    (bestScan probs).1 < probs.length := by
  cases probs with
  | nil => exact absurd rfl h
  | cons p rest =>
    have := bestScanGo_fst rest 1 0 p (Nat.lt_succ_self 0)
    simpa [bestScan, Nat.add_comm] using this

end ImageProcessor

namespace Part003

/-- When no score beats the accumulator, the part_003 scan keeps its
`null` sentinel. -/
theorem scanOpt_of_all_le (scores : List ℝ) : ∀ (j : ℕ) (b : Option ℕ) (bv : ℝ),
    (∀ s ∈ scores, s ≤ bv) → scanOpt scores j b bv = (b, bv) := by
  induction scores with
  | nil => intro j b bv _; rfl
  | cons s rest ih =>
    intro j b bv h
    show (if bv < s then scanOpt rest (j + 1) (some j) s
      else scanOpt rest (j + 1) b bv) = (b, bv)
    rw [if_neg (not_lt.mpr (h s (List.mem_cons_self _ _)))]
    exact ih (j + 1) b bv (fun x hx => h x (List.mem_cons.mpr (Or.inr hx)))

end Part003

open ImageProcessor in
open Part001 in
open Part003 in
/-- C9 (amended): unresolvable best-class indices never throw, but the
three decoders disagree with the claimed `Unknown_<index>` label.  In the
main imageProcessor.js decoder the best class of a kept row is always a
valid index into `CLASS_NAMES` (the `Unknown_<index>` guard is
unreachable).  In the part_003 decoder a kept row whose class scores are
all non-positive gets the `null` sentinel and the placeholder label
`Unknown_na`.  In the part_001 decoder a row whose class scores are all
non-positive keeps the `-1` sentinel, and is either dropped entirely
(threshold `>= 0`, since its score is `0`) or labelled with the plain
string `"Unknown"` — not `Unknown_<index>`. -/
theorem C9_unresolvable_class_indices
    (nA : ℕ) (dataA : ℕ → ℝ) (ctA : ℝ) (offA : ℕ) (dA : ImageProcessor.Det)
    (nB : ℕ) (dataB : ℕ → ℝ) (ctB : ℝ) (offB : ℕ)
    (outputData : List ℝ) (threshold : ℝ) (i : ℕ)
    (hA : ImageProcessor.decodeRow nA dataA ctA offA = some dA)
    (hB3 : ctB ≤ dataB (offB + 4))
    (hz3 : ∀ s ∈ scores003 nB dataB offB, s ≤ 0)
    (hz1 : ∀ s ∈ scoresOf outputData (i * (5 + CLASS_NAMES.length)), s ≤ 0) :
    (∃ h : dA.class_id < CLASS_NAMES.length,
      dA.label = CLASS_NAMES.get ⟨dA.class_id, h⟩) ∧
    (∃ det : Part003.Det, Part003.decodeRow nB dataB ctB offB = some det ∧
      det.class_id = none ∧ det.label = "Unknown_na") ∧
    ((0 ≤ threshold → rowDecode001 outputData threshold i = none) ∧
      (threshold < 0 → ∃ det : Part001.Det,
        rowDecode001 outputData threshold i = some det ∧
        det.className = "Unknown")) := by
  refine ⟨?_, ?_, ?_, ?_⟩
  · unfold ImageProcessor.decodeRow at hA
    split at hA
    · exact absurd hA (by simp)
    · split at hA
      · rw [← Option.some_inj.mp hA]
        have hne : softmax (classScoresOf nA dataA offA) ≠ [] := by
          intro hE
          have hlen := congrArg List.length hE
          unfold softmax at hlen
          simp at hlen
          next hcond _ =>
          exact hcond (by simpa using hlen)
        have hlt : (bestScan (softmax (classScoresOf nA dataA offA))).1 <
            CLASS_NAMES.length := by
          have h1 := bestScan_fst_lt _ hne
          have h2 : (softmax (classScoresOf nA dataA offA)).length ≤
              CLASS_NAMES.length := by
            unfold softmax classScoresOf
            simp [min_le_right]
          exact lt_of_lt_of_le h1 h2
        exact ⟨hlt, by unfold labelOfIdx; rw [dif_pos hlt]⟩
      · exact absurd hA (by simp)
  · refine ⟨⟨dataB offB, dataB (offB + 1), dataB (offB + 2), dataB (offB + 3),
      dataB (offB + 4), none, "Unknown_na"⟩, ?_, rfl, rfl⟩
    unfold Part003.decodeRow
    rw [if_pos hB3]
    rw [show scan003 (scores003 nB dataB offB) = (none, 0) from
      scanOpt_of_all_le _ 0 none 0 hz3]
    rfl
  · intro hth
    unfold rowDecode001
    rw [show scan001 (scoresOf outputData (i * (5 + CLASS_NAMES.length))) =
      ((-1 : ℤ), (0:ℝ)) from scan001_of_all_nonpos _ hz1]
    rw [if_neg (by
      rw [show (((-1 : ℤ), (0:ℝ))).2 = (0:ℝ) from rfl, mul_zero]
      exact not_lt.mpr hth)]
  · intro hth
    have hscan : scan001 (scoresOf outputData (i * (5 + CLASS_NAMES.length))) =
        ((-1 : ℤ), (0:ℝ)) := scan001_of_all_nonpos _ hz1
    have hclass : className001
        (scan001 (scoresOf outputData (i * (5 + CLASS_NAMES.length)))).1 =
        "Unknown" := by
      rw [hscan]
      show className001 (-1) = "Unknown"
      unfold className001
      rw [dif_neg (by decide)]
    refine ⟨⟨className001
        (scan001 (scoresOf outputData (i * (5 + CLASS_NAMES.length)))).1,
      outputData.getD (i * (5 + CLASS_NAMES.length) + 4) 0 *
        (scan001 (scoresOf outputData (i * (5 + CLASS_NAMES.length)))).2,
      [outputData.getD (i * (5 + CLASS_NAMES.length)) 0,
       outputData.getD (i * (5 + CLASS_NAMES.length) + 1) 0,
       outputData.getD (i * (5 + CLASS_NAMES.length) + 2) 0,
       outputData.getD (i * (5 + CLASS_NAMES.length) + 3) 0]⟩, ?_, hclass⟩
    unfold rowDecode001
    rw [if_pos (by
      rw [hscan]
      show threshold < outputData.getD (i * (5 + CLASS_NAMES.length) + 4) 0 * 0
      rw [mul_zero]
      exact hth)]

namespace Part001

/-- The no-class row's scores are all zero. -/
theorem scoresOf_noClassRow : scoresOf noClassRow 0 = List.replicate 26 0 := rfl

/-- The no-class row decodes to nothing at the default-style threshold. -/
theorem rowDecode001_noClassRow : rowDecode001 noClassRow (1 / 4) 0 = none := by
  unfold rowDecode001
  rw [show (0 : ℕ) * (5 + CLASS_NAMES.length) = 0 from rfl]
  rw [show scan001 (scoresOf noClassRow 0) = ((-1 : ℤ), (0:ℝ)) from
    scan001_of_all_nonpos _ (fun s hs => by
      rw [scoresOf_noClassRow] at hs
      rw [List.eq_of_mem_replicate hs])]
  rw [if_neg (by
    show ¬((1 / 4 : ℝ) < noClassRow.getD (0 + 4) 0 * 0)
    rw [mul_zero]
    norm_num)]

end Part001

open Part001 in
/-- C9 counterexample: a part_001 row whose best class index is the
unresolvable `-1` sentinel (all class scores non-positive) produces NO
detection at all at the default-style threshold `1/4` — the decoder emits
nothing rather than a detection labelled `Unknown_<index>` (and when such
a row is emitted at a negative threshold its label is the plain
`"Unknown"`). -/
theorem C9_counterexample :
    (scan001 (scoresOf noClassRow 0)).1 = -1 ∧
    Part001.postprocess noClassRow (1 / 4) = [] := by
  constructor
  · rw [show scan001 (scoresOf noClassRow 0) = ((-1 : ℤ), (0:ℝ)) from
      scan001_of_all_nonpos _ (fun s hs => by
        rw [scoresOf_noClassRow] at hs
        rw [List.eq_of_mem_replicate hs])]
  · unfold Part001.postprocess
    rw [show noClassRow.length / (5 + CLASS_NAMES.length) = 1 by
      rw [show noClassRow.length = 31 by
        unfold noClassRow
        rw [List.length_append, List.length_replicate]
        rfl]
      decide]
    rw [show List.range 1 = [0] from rfl, List.filterMap_cons, List.filterMap_nil,
      rowDecode001_noClassRow]

open ImageProcessor in
open Part001 in
/-- C9 witness: the amended theorem applied at concrete rows — the main
decoder's detection from `singleRowData` carries a valid class index, and
the all-zero-scores part_001 row is dropped at threshold `1/4`. -/
theorem C9_witness :
    (∃ h : sDet.class_id < CLASS_NAMES.length,
      sDet.label = CLASS_NAMES.get ⟨sDet.class_id, h⟩) ∧
    rowDecode001 noClassRow (1 / 4) 0 = none := by
  have h := C9_unresolvable_class_indices 6 singleRowData (1 / 2) 0 sDet
    6 (fun _ => (0:ℝ)) 0 0 noClassRow (1 / 4) 0
    (decodeRow_six singleRowData 0 (by norm_num [singleRowData, dataOf]))
    le_rfl
    (fun s hs => by
      rw [show Part003.scores003 6 (fun _ => (0:ℝ)) 0 = [0] from rfl] at hs
      rw [List.eq_of_mem_singleton hs])
    (fun s hs => by
      rw [show (0 : ℕ) * (5 + CLASS_NAMES.length) = 0 from rfl,
        scoresOf_noClassRow] at hs
      rw [List.eq_of_mem_replicate hs])
  exact ⟨h.1, h.2.2.1 (by norm_num)⟩
